import Mathlib

/-!
Verification of the incremental SSA-construction engine described by the
repository specification (spec.md sections 3 and 4), together with the
capability-attenuation logic of crates/wasi-common/src/entry/path.rs.

The SSA engine itself (lib/frontend/src/ssa.rs) is not among the sources
under verification; only the crate root lib/frontend/src/lib.rs (module
declarations and documentation) is.  Following the rules for missing code,
the engine is modelled executably from the specification's own algorithm
description.  The wasi-common part is embedded directly from
src/crates/wasi-common/src/entry/path.rs, with the helpers that live in
other (absent) files of the crate represented as oracles or modelled
definitions.
-/

namespace SSA

/-- Modelled from the spec: the per-(block, variable) binding states of the
Binding Store (spec.md section 3, "Binding"): Defined(value) is a direct local
definition, InProgress(placeholder) guards recursion on cycles, Resolved(value)
is a cached finished computation.  The Unresolved state is represented by
absence from the binding table. -/
inductive Binding where
  | Defined (v : Nat)
  | InProgress (ph : Nat)
  | Resolved (v : Nat)
deriving DecidableEq

/-- The value stored inside a binding. -/
def bindVal : Binding → Nat
  | .Defined x => x
  | .InProgress x => x
  | .Resolved x => x

/-- Modelled from the spec: failure modes of the engine (spec.md section 4.3
"Failure modes" and section 4.4): UninitializedVariable, SealedBlock,
AlreadySealed, UnsealedBlockAtFinalize.  The extra constructors fuel (recursion
budget of the executable model exhausted) and noBlock (operation on a block
identifier that was never created) are artifacts of the shallow embedding. -/
inductive SsaErr where
  | uninitializedVariable
  | sealedBlock
  | alreadySealed
  | unsealedBlockAtFinalize
  | noBlock
  | fuel
deriving DecidableEq

/-- Modelled from the spec: a block's graph data (spec.md section 3, "Block"):
its ordered predecessor list and its sealed flag. -/
structure BlockData where
  preds : List Nat
  sealed : Bool
deriving DecidableEq

/-- Modelled from the spec: the mutable state of the Builder (spec.md sections
2 and 3).  blocks is the Block Graph, bindings the Binding Store (association
list, most recent entry first), params the surviving block parameters
(block, variable, placeholder value), repl the union-find-like indirection
table of spec.md section 9 mapping an eliminated placeholder to its surviving
value, phiOps the wired incoming values of each live block parameter, pending
the placeholders of unsealed blocks awaiting seal-time wiring, nextVal /
nextBlock fresh-identifier counters, and policy the optional default-value
policy of spec.md section 9's open question. -/
structure SSAState where
  blocks : List (Nat × BlockData)
  bindings : List ((Nat × Nat) × Binding)
  params : List (Nat × Nat × Nat)
  repl : List (Nat × Nat)
  phiOps : List (Nat × List Nat)
  pending : List (Nat × Nat × Nat)
  nextVal : Nat
  nextBlock : Nat
  policy : Option Nat
deriving DecidableEq

/-- First-match association-list lookup. -/
def alookup {α β : Type} [DecidableEq α] (k : α) : List (α × β) → Option β
  | [] => none
  | e :: t => if e.1 = k then some e.2 else alookup k t

/-- Canonical representative of a value through the indirection table
(spec.md section 9: "resolve to final representative").  The table is kept
path-compressed, so one lookup step suffices. -/
def canon (s : SSAState) (v : Nat) : Nat :=
  match alookup v s.repl with
  | some w => w
  | none => v

/-- Record that placeholder ph has been eliminated in favour of value w:
every use of ph now resolves to w.  Existing entries pointing at ph are
re-pointed at w (path compression), keeping the table one-step. -/
def aliasAdd (s : SSAState) (ph w : Nat) : SSAState :=
  { s with repl := (ph, w) :: s.repl.map (fun e => (e.1, if e.2 = ph then w else e.2)) }

/-- Remove a placeholder from the live parameter and wired-operand tables. -/
def dropPhi (s : SSAState) (ph : Nat) : SSAState :=
  { s with params := s.params.filter (fun t => decide (t.2.2 ≠ ph)),
           phiOps := s.phiOps.filter (fun t => decide (t.1 ≠ ph)) }

/-- Modelled from the spec: the de-duplicated set of incoming values of a
block parameter, excluding self-references, computed on canonical
representatives (spec.md section 4.3, "Trivial-phi elimination"); c is the
canonical representative of the parameter itself. -/
def uniqOf (s : SSAState) (c : Nat) (ops : List Nat) : List Nat :=
  ((ops.map (canon s)).filter (fun x => decide (x ≠ c))).dedup

/-- The live parameters q other than ph among whose wired incoming values
ph occurs; these are re-checked after ph is eliminated. -/
def usersOf (s : SSAState) (ph c : Nat) : List Nat :=
  (s.phiOps.filter (fun q => decide (q.1 ≠ ph) && q.2.any (fun u => decide (canon s u = c)))).map (fun q => q.1)

/-- Request shape for the fuelled elimination recursion: re-check one
placeholder, or a list of them. -/
inductive CReq where
  | one (ph : Nat)
  | many (phs : List Nat)

/-- Modelled from the spec: trivial-phi elimination with cascading re-checks
(spec.md section 4.3).  Once a placeholder's incoming values are all wired,
if the de-duplicated set excluding self-references has exactly one member w,
the placeholder is removed and every use rewritten to w (through the
indirection table), and every placeholder that used it is re-checked;
with zero members the parameter is kept as the concrete "undefined"
placeholder; with two or more it is kept as a genuine merge point. -/
def casc : Nat → SSAState → CReq → SSAState
  | 0, s, _ => s
  | Nat.succ n, s, .one ph =>
    match alookup ph s.phiOps with
    | none => s
    | some ops =>
      let c := canon s ph
      match uniqOf s c ops with
      | [w] => casc n (aliasAdd (dropPhi s ph) ph w) (.many (usersOf s ph c))
      | _ => s
  | Nat.succ _, s, .many [] => s
  | Nat.succ n, s, .many (q :: qs) => casc n (casc n s (.one q)) (.many qs)

/-- Re-check a single placeholder for triviality (wrapper around casc). -/
def removeTrivialCascade (n : Nat) (s : SSAState) (ph : Nat) : SSAState :=
  casc n s (.one ph)

/-- Cache step at the end of a read computation: consult the cache again
before writing (spec.md section 4.3 step 3: a value is computed at most once
and a Resolved binding never changes); if a Resolved or Defined binding
appeared, keep it and return its canonical value, else record Resolved. -/
def cacheResolvedPair (s : SSAState) (b v w : Nat) : Nat × SSAState :=
  match alookup (b, v) s.bindings with
  | some (.Defined x) => (canon s x, s)
  | some (.Resolved x) => (canon s x, s)
  | _ => (w, { s with bindings := ((b, v), .Resolved w) :: s.bindings })

/-- Request shape for the fuelled mutual read recursion: read a variable in a
block, wire a placeholder's incoming values over a predecessor list, or read a
variable in every block of a list. -/
inductive Req where
  | rv (b v : Nat)
  | wp (b v ph : Nat) (preds : List Nat)
  | rp (v : Nat) (preds : List Nat)

/-- Result of the fuelled recursion. -/
inductive Res where
  | rvOk (w : Nat) (s : SSAState)
  | wpOk (s : SSAState)
  | rpOk (vs : List Nat) (s : SSAState)
  | err (e : SsaErr)
deriving DecidableEq

/-- Modelled from the spec: the recursive resolution engine of spec.md
section 4.3 (`read`), executable with an explicit fuel.  rv b v is
read(b, v): consult the cache first; otherwise, on a sealed block with zero
predecessors signal UninitializedVariable unless a default policy is
configured; with exactly one predecessor read there recursively and cache
the result with no parameter creation; with two or more predecessors or on
an unsealed block mint a block-parameter placeholder, mark the binding
InProgress, then either wire the predecessors now (sealed) running
trivial-phi elimination, or defer to seal time (unsealed, pending).
wp wires one placeholder across a predecessor list and runs elimination;
rp reads a variable in each predecessor, threading the state. -/
def exec : Nat → SSAState → Req → Res
  | 0, _, _ => .err .fuel
  | Nat.succ fuel, s, .rv b v =>
    match alookup (b, v) s.bindings with
    | some (.Defined x) => .rvOk (canon s x) s
    | some (.Resolved x) => .rvOk (canon s x) s
    | some (.InProgress ph) => .rvOk (canon s ph) s
    | none =>
      match alookup b s.blocks with
      | none => .err .noBlock
      | some bd =>
        if bd.sealed then
          match bd.preds with
          | [] =>
            match s.policy with
            | some d => .rvOk (canon s d) { s with bindings := ((b, v), .Defined d) :: s.bindings }
            | none => .err .uninitializedVariable
          | [p] =>
            match exec fuel s (.rv p v) with
            | .rvOk w s1 =>
              let pr := cacheResolvedPair s1 b v w
              .rvOk pr.1 pr.2
            | .err e => .err e
            | _ => .err .fuel
          | _ =>
            let ph := s.nextVal
            let s1 : SSAState :=
              { s with nextVal := ph + 1, params := (b, v, ph) :: s.params,
                       bindings := ((b, v), .InProgress ph) :: s.bindings }
            match exec fuel s1 (.wp b v ph bd.preds) with
            | .wpOk s2 =>
              let pr := cacheResolvedPair s2 b v (canon s2 ph)
              .rvOk pr.1 pr.2
            | .err e => .err e
            | _ => .err .fuel
        else
          let ph := s.nextVal
          let s1 : SSAState :=
            { s with nextVal := ph + 1, params := (b, v, ph) :: s.params,
                     bindings := ((b, v), .InProgress ph) :: s.bindings,
                     pending := (b, v, ph) :: s.pending }
          .rvOk ph s1
  | Nat.succ fuel, s, .wp _ v ph preds =>
    match exec fuel s (.rp v preds) with
    | .rpOk vals s1 =>
      .wpOk (removeTrivialCascade fuel { s1 with phiOps := (ph, vals) :: s1.phiOps } ph)
    | .err e => .err e
    | _ => .err .fuel
  | Nat.succ _, s, .rp _ [] => .rpOk [] s
  | Nat.succ fuel, s, .rp v (p :: ps) =>
    match exec fuel s (.rv p v) with
    | .rvOk w s1 =>
      match exec fuel s1 (.rp v ps) with
      | .rpOk vs s2 => .rpOk (w :: vs) s2
      | .err e => .err e
      | _ => .err .fuel
    | .err e => .err e
    | _ => .err .fuel

/-- Modelled from the spec: `read(block, variable)` of spec.md section 4.3. -/
def readVar (fuel : Nat) (s : SSAState) (b v : Nat) : Res :=
  exec fuel s (.rv b v)

/-- Modelled from the spec: `define(block, variable, value)` of spec.md
section 4.3: record a Defined binding, overwriting any prior direct
definition in that block; no recursion triggered. -/
def defineVar (s : SSAState) (b v x : Nat) : SSAState :=
  { s with bindings := ((b, v), .Defined x) :: s.bindings }

/-- Replace the data of one block, keeping the key set. -/
def updateBlocks (l : List (Nat × BlockData)) (b : Nat) (bd : BlockData) : List (Nat × BlockData) :=
  l.map (fun e => if e.1 = b then (b, bd) else e)

/-- Modelled from the spec: `add_predecessor(target, from)` of spec.md
section 4.2: append to the predecessor list; fail with SealedBlock if the
target is already sealed. -/
def addPredecessor (s : SSAState) (target from_ : Nat) : Except SsaErr SSAState :=
  match alookup target s.blocks with
  | none => .error .noBlock
  | some bd =>
    if bd.sealed then .error .sealedBlock
    else .ok { s with blocks := updateBlocks s.blocks target { bd with preds := bd.preds ++ [from_] } }

/-- Modelled from the spec: `create_block()` of spec.md section 4.2:
a fresh block with no predecessors, unsealed. -/
def createBlock (s : SSAState) : Nat × SSAState :=
  (s.nextBlock,
   { s with blocks := (s.nextBlock, ⟨[], false⟩) :: s.blocks, nextBlock := s.nextBlock + 1 })

/-- The pending placeholders of one block, as (variable, placeholder) pairs. -/
def pendingOf (s : SSAState) (b : Nat) : List (Nat × Nat) :=
  (s.pending.filter (fun t => decide (t.1 = b))).map (fun t => t.2)

/-- Modelled from the spec: the seal-time deferred resolution of spec.md
sections 4.2 and 4.3: each placeholder left pending for the block is wired
across the now-complete predecessor list exactly as in the sealed case, its
binding is upgraded from InProgress to Resolved, and trivial-phi elimination
runs. -/
def processPending (fuel : Nat) : SSAState → Nat → List Nat → List (Nat × Nat) → Except SsaErr SSAState
  | s, _, _, [] => .ok s
  | s, b, preds, e :: rest =>
    match exec fuel s (.wp b e.1 e.2 preds) with
    | .wpOk s2 =>
      let s3 : SSAState :=
        match alookup (b, e.1) s2.bindings with
        | some (.InProgress _) =>
          { s2 with bindings := ((b, e.1), .Resolved (canon s2 e.2)) :: s2.bindings }
        | _ => s2
      processPending fuel s3 b preds rest
    | .err er => .error er
    | _ => .error .fuel

/-- Modelled from the spec: `seal(block)` of spec.md section 4.2: mark the
block sealed (fail with AlreadySealed on a second seal), then resolve every
pending placeholder of the block using the now-complete predecessor list. -/
def sealBlock (fuel : Nat) (s : SSAState) (b : Nat) : Except SsaErr SSAState :=
  match alookup b s.blocks with
  | none => .error .noBlock
  | some bd =>
    if bd.sealed then .error .alreadySealed
    else
      processPending fuel
        { s with blocks := updateBlocks s.blocks b { bd with sealed := true },
                 pending := s.pending.filter (fun t => decide (t.1 ≠ b)) }
        b bd.preds (pendingOf s b)

/-- Modelled from the spec: `finalize()` of spec.md section 4.4: validate
that every block is sealed; any unsealed block is UnsealedBlockAtFinalize.
The state is not modified. -/
def finalize (s : SSAState) : Except SsaErr SSAState :=
  if s.blocks.all (fun e => e.2.sealed) then .ok s else .error .unsealedBlockAtFinalize

/-- The public operations of the Builder facade (spec.md section 4.4),
reified so that invariants can be stated uniformly over every operation. -/
inductive Op where
  | defineOp (b v x : Nat)
  | readOp (fuel b v : Nat)
  | addPredOp (t f : Nat)
  | sealOp (fuel b : Nat)
  | finalizeOp
  | createBlockOp

/-- Apply one operation to the state (the value returned by a read is
discarded; only the state evolution matters for the invariants). -/
def applyOp : Op → SSAState → Except SsaErr SSAState
  | .defineOp b v x, s => .ok (defineVar s b v x)
  | .readOp fuel b v, s =>
    match readVar fuel s b v with
    | .rvOk _ s2 => .ok s2
    | .err e => .error e
    | _ => .error .fuel
  | .addPredOp t f, s => addPredecessor s t f
  | .sealOp fuel b, s => sealBlock fuel s b
  | .finalizeOp, s => finalize s
  | .createBlockOp, s => .ok (createBlock s).2

end SSA

namespace Wasi

/-- The WASI rights that appear in crates/wasi-common/src/entry/path.rs
(bitflags in the source, one constructor per flag here). -/
inductive Right where
  | fd_datasync
  | fd_read
  | fd_write
  | fd_allocate
  | fd_readdir
  | fd_filestat_set_size
  | path_open
  | path_create_directory
  | path_filestat_get
  | path_filestat_set_times
  | path_link_source
  | path_link_target
  | path_readlink
  | path_remove_directory
  | path_rename_source
  | path_rename_target
deriving DecidableEq

/-- A rights set (the Rights bitflags of the source; bitwise and becomes set
intersection, the non-emptiness test of a masked word becomes a non-empty
intersection, flag containment becomes subset). -/
abbrev Rights := Finset Right

/-- The open-flag bits of the source that path_open inspects. -/
inductive Oflag where
  | creat
  | directory
  | excl
  | trunc
deriving DecidableEq

/-- Oflags bitflags. -/
abbrev Oflags := Finset Oflag

/-- The lookup-flag bits (Lookupflags in the source). -/
inductive LFlag where
  | symlink_follow
deriving DecidableEq

/-- Lookupflags bitflags. -/
abbrev Lookupflags := Finset LFlag

/-- HandleRights from the handle module: a base rights set and an
inheriting rights set. -/
structure HandleRights where
  base : Rights
  inheriting : Rights
deriving DecidableEq

/-- HandleRights::from_base: the given base rights and empty inheriting
rights. -/
def HandleRights.from_base (b : Rights) : HandleRights := ⟨b, ∅⟩

/-- An Entry: an opaque underlying handle plus its rights (the only parts of
the Entry type that path.rs touches: get_rights / set_rights and passing the
handle to path resolution). -/
structure Entry where
  handle : Nat
  rights : HandleRights
deriving DecidableEq

/-- A resolution oracle standing for the path-walking part of
crate::path::get: from the entry's underlying handle, the lookup flags, the
path and the needs-final-component flag it may produce a directory handle
and the remaining path. -/
def Resolver : Type := Nat → Lookupflags → Nat → Bool → Option (Nat × Nat)

/-- Modelled from the spec: the helper crate::path::get lives in
crates/wasi-common/src/path.rs, which is not among the sources under
verification (only its callers in entry/path.rs are).  It validates the
required rights against the entry's rights (HandleRights::contains on both
the base and the inheriting sets, Notcapable - here None - when a required
right is missing) and then resolves the path, which is abstracted by the
resolve oracle; resolution sees the entry's handle but not its rights. -/
def path_get (resolve : Resolver) (e : Entry) (required : HandleRights)
    (lf : Lookupflags) (p : Nat) (needFinal : Bool) : Option (Nat × Nat) :=
  if required.base ⊆ e.rights.base ∧ required.inheriting ⊆ e.rights.inheriting then
    resolve e.handle lf p needFinal
  else none

/-- From path_open lines 98: the handle is opened readable when
fs_rights_base intersected with FD_READ | FD_READDIR is non-empty. -/
def openReadable (base : Rights) : Bool :=
  decide (base ∩ ({Right.fd_read, Right.fd_readdir} : Rights) ≠ ∅)

/-- From path_open lines 99-104: the handle is opened writable when
fs_rights_base intersected with FD_DATASYNC | FD_WRITE | FD_ALLOCATE |
FD_FILESTAT_SET_SIZE is non-empty. -/
def openWritable (base : Rights) : Bool :=
  decide (base ∩ ({Right.fd_datasync, Right.fd_write, Right.fd_allocate,
                   Right.fd_filestat_set_size} : Rights) ≠ ∅)

/-- Entry::path_open from entry/path.rs lines 76-116.  The absent helpers
are oracles: openRights for crate::path::open_rights (the needed rights
derived from the requested rights, oflags and fdflags), resolve for the
path walk inside crate::path::get, openat for Handle::openat, and
entryRightsOf for the maximal consistent rights that Entry::new assigns from
the opened descriptor.  After the open, the code masks the new entry's base
rights with fs_rights_base and its inheriting rights with
fs_rights_inheriting (lines 109-114). -/
def path_open (openRights : HandleRights → Oflags → Nat → HandleRights)
    (resolve : Resolver)
    (openat : Nat → Nat → Bool → Bool → Oflags → Nat → Option Nat)
    (entryRightsOf : Nat → HandleRights)
    (self : Entry) (dirflags : Lookupflags) (p : Nat) (oflags : Oflags)
    (fs_rights_base fs_rights_inheriting : Rights) (fdflags : Nat) : Option Entry :=
  let needed := openRights ⟨fs_rights_base, fs_rights_inheriting⟩ oflags fdflags
  match path_get resolve self needed dirflags p (decide (oflags ∩ ({Oflag.creat} : Oflags) ≠ ∅)) with
  | none => none
  | some dp =>
    match openat dp.1 dp.2 (openReadable fs_rights_base) (openWritable fs_rights_base) oflags fdflags with
    | none => none
    | some fd =>
      let entry : Entry := ⟨fd, entryRightsOf fd⟩
      some { entry with
             rights := ⟨entry.rights.base ∩ fs_rights_base,
                        entry.rights.inheriting ∩ fs_rights_inheriting⟩ }

/-- Entry::path_rename from entry/path.rs lines 133-150: both the source
entry (self) and the destination entry are checked, via crate::path::get,
against the same required rights HandleRights::from_base(PATH_RENAME_SOURCE);
the final rename on the two resolved directory handles is an oracle. -/
def path_rename (resolve : Resolver)
    (renameOp : Nat → Nat → Nat → Nat → Option Unit)
    (self : Entry) (old_path : Nat) (new_entry : Entry) (new_path : Nat) : Option Unit :=
  let required := HandleRights.from_base ({Right.path_rename_source} : Rights)
  match path_get resolve self required (∅ : Lookupflags) old_path true with
  | none => none
  | some od =>
    match path_get resolve new_entry required (∅ : Lookupflags) new_path true with
    | none => none
    | some nd => renameOp od.1 od.2 nd.1 nd.2

/-- Erase the PATH_RENAME_TARGET right from both rights sets of an entry. -/
def dropRenameTarget (e : Entry) : Entry :=
  { e with rights := ⟨e.rights.base.erase Right.path_rename_target,
                      e.rights.inheriting.erase Right.path_rename_target⟩ }

end Wasi

namespace Wasi

/-- path_get with a single-right base requirement succeeds exactly through
the membership of that right in the entry's base rights. -/
theorem path_get_from_base_singleton (resolve : Resolver) (e : Entry) (r : Right)
    (lf : Lookupflags) (p : Nat) (fin : Bool) :
    path_get resolve e (HandleRights.from_base ({r} : Rights)) lf p fin
      = if r ∈ e.rights.base then resolve e.handle lf p fin else none := by
  simp [path_get, HandleRights.from_base, Finset.singleton_subset_iff]

/-- Claim C8: whenever path_open returns Ok(entry), the returned entry's
rights are attenuated to what was requested: its base rights are a subset of
the fs_rights_base argument and its inheriting rights are a subset of the
fs_rights_inheriting argument (entry/path.rs lines 109-114). -/
theorem path_open_attenuates
    (openRights : HandleRights → Oflags → Nat → HandleRights) (resolve : Resolver)
    (openat : Nat → Nat → Bool → Bool → Oflags → Nat → Option Nat)
    (entryRightsOf : Nat → HandleRights)
    (self : Entry) (dirflags : Lookupflags) (p : Nat) (oflags : Oflags)
    (base inheriting : Rights) (fdflags : Nat) (e : Entry)
    (h : path_open openRights resolve openat entryRightsOf self dirflags p oflags
           base inheriting fdflags = some e) :
    e.rights.base ⊆ base ∧ e.rights.inheriting ⊆ inheriting := by
  simp only [path_open] at h
  split at h
  · exact absurd h (by simp)
  · split at h
    · exact absurd h (by simp)
    · simp only [Option.some.injEq] at h
      subst h
      exact ⟨Finset.inter_subset_right, Finset.inter_subset_right⟩

/-- Demonstration oracles for the path_open witness. -/
def demoResolve : Resolver := fun h _ p _ => some (h, p)

/-- Demonstration open_rights oracle: the needed rights are the requested
rights themselves. -/
def demoOpenRights : HandleRights → Oflags → Nat → HandleRights := fun hr _ _ => hr

/-- Demonstration openat oracle. -/
def demoOpenat : Nat → Nat → Bool → Bool → Oflags → Nat → Option Nat := fun _ p _ _ _ _ => some p

/-- Demonstration maximal-rights oracle for Entry::new. -/
def demoEntryRightsOf : Nat → HandleRights :=
  fun _ => ⟨{Right.fd_read, Right.fd_write, Right.path_rename_target}, {Right.fd_read}⟩

/-- Demonstration directory entry holding the requested rights. -/
def demoDirEntry : Entry := ⟨7, ⟨{Right.fd_read, Right.path_open}, ∅⟩⟩

/-- Witness for claim C8 at a concrete successful open. -/
theorem path_open_attenuates_witness :
    ∃ e : Entry,
      path_open demoOpenRights demoResolve demoOpenat demoEntryRightsOf demoDirEntry
        (∅ : Lookupflags) 3 (∅ : Oflags) ({Right.fd_read} : Rights) (∅ : Rights) 0 = some e
      ∧ e.rights.base ⊆ ({Right.fd_read} : Rights) ∧ e.rights.inheriting ⊆ (∅ : Rights) := by
  refine ⟨⟨3, ⟨{Right.fd_read}, ∅⟩⟩, by decide, ?_⟩
  exact path_open_attenuates demoOpenRights demoResolve demoOpenat demoEntryRightsOf demoDirEntry
    (∅ : Lookupflags) 3 (∅ : Oflags) ({Right.fd_read} : Rights) (∅ : Rights) 0
    ⟨3, ⟨{Right.fd_read}, ∅⟩⟩ (by decide)

end Wasi

namespace Wasi

/-- Claim C9: path_rename checks the same required right PATH_RENAME_SOURCE
on both the source entry and the destination entry (entry/path.rs lines
133-150): it fails when either entry lacks PATH_RENAME_SOURCE, and it never
requires PATH_RENAME_TARGET on the destination - erasing PATH_RENAME_TARGET
from both entries leaves the outcome unchanged. -/
theorem path_rename_rights (resolve : Resolver)
    (renameOp : Nat → Nat → Nat → Nat → Option Unit)
    (self : Entry) (old_path : Nat) (new_entry : Entry) (new_path : Nat) :
    ((Right.path_rename_source ∉ self.rights.base
        ∨ Right.path_rename_source ∉ new_entry.rights.base) →
      path_rename resolve renameOp self old_path new_entry new_path = none)
    ∧ path_rename resolve renameOp self old_path new_entry new_path
        = path_rename resolve renameOp (dropRenameTarget self) old_path
            (dropRenameTarget new_entry) new_path := by
  constructor
  · intro hmiss
    simp only [path_rename, path_get_from_base_singleton]
    rcases hmiss with hmiss | hmiss
    · rw [if_neg hmiss]
    · rcases h1 : (if Right.path_rename_source ∈ self.rights.base
          then resolve self.handle (∅ : Lookupflags) old_path true else none) with _ | od
      · rfl
      · simp only [if_neg hmiss]
    -- both cases close: first get none, or second get none
  · simp only [path_rename, path_get_from_base_singleton, dropRenameTarget]
    have hs : Right.path_rename_source ∈ self.rights.base.erase Right.path_rename_target
        ↔ Right.path_rename_source ∈ self.rights.base := by
      simp [Finset.mem_erase]
    have hn : Right.path_rename_source ∈ new_entry.rights.base.erase Right.path_rename_target
        ↔ Right.path_rename_source ∈ new_entry.rights.base := by
      simp [Finset.mem_erase]
    simp only [hs, hn]

/-- Demonstration entry lacking PATH_RENAME_SOURCE. -/
def demoNoSourceEntry : Entry := ⟨1, ⟨{Right.path_rename_target}, ∅⟩⟩

/-- Demonstration rename oracle. -/
def demoRenameOp : Nat → Nat → Nat → Nat → Option Unit := fun _ _ _ _ => some ()

/-- Witness for claim C9: at a concrete source entry lacking
PATH_RENAME_SOURCE the rename fails. -/
theorem path_rename_rights_witness :
    path_rename demoResolve demoRenameOp demoNoSourceEntry 3 demoDirEntry 4 = none :=
  (path_rename_rights demoResolve demoRenameOp demoNoSourceEntry 3 demoDirEntry 4).1
    (Or.inl (by decide))

/-- Claim C10: in path_open the underlying handle is opened readable if and
only if fs_rights_base contains FD_READ or FD_READDIR, and writable if and
only if it contains FD_DATASYNC, FD_WRITE, FD_ALLOCATE or
FD_FILESTAT_SET_SIZE (entry/path.rs lines 98-104); moreover path_open
consults the openat oracle only at exactly those two flags: two openat
oracles that agree there yield the same open. -/
theorem path_open_read_write_flags
    (base : Rights)
    (openRights : HandleRights → Oflags → Nat → HandleRights) (resolve : Resolver)
    (openat openat1 : Nat → Nat → Bool → Bool → Oflags → Nat → Option Nat)
    (entryRightsOf : Nat → HandleRights)
    (self : Entry) (dirflags : Lookupflags) (p : Nat) (oflags : Oflags)
    (inheriting : Rights) (fdflags : Nat)
    (hagree : ∀ d pp, openat1 d pp (openReadable base) (openWritable base) oflags fdflags
        = openat d pp (openReadable base) (openWritable base) oflags fdflags) :
    (openReadable base = true ↔ (Right.fd_read ∈ base ∨ Right.fd_readdir ∈ base))
    ∧ (openWritable base = true
        ↔ (Right.fd_datasync ∈ base ∨ Right.fd_write ∈ base ∨ Right.fd_allocate ∈ base
            ∨ Right.fd_filestat_set_size ∈ base))
    ∧ path_open openRights resolve openat1 entryRightsOf self dirflags p oflags
        base inheriting fdflags
      = path_open openRights resolve openat entryRightsOf self dirflags p oflags
        base inheriting fdflags := by
  refine ⟨?_, ?_, ?_⟩
  · simp only [openReadable, decide_eq_true_eq, Ne, ← Finset.nonempty_iff_ne_empty]
    constructor
    · rintro ⟨x, hx⟩
      rw [Finset.mem_inter] at hx
      rcases hx with ⟨hxb, hxs⟩
      simp only [Finset.mem_insert, Finset.mem_singleton] at hxs
      rcases hxs with rfl | rfl
      · exact Or.inl hxb
      · exact Or.inr hxb
    · rintro (hb | hb)
      · exact ⟨Right.fd_read, Finset.mem_inter.2 ⟨hb, by simp⟩⟩
      · exact ⟨Right.fd_readdir, Finset.mem_inter.2 ⟨hb, by simp⟩⟩
  · simp only [openWritable, decide_eq_true_eq, Ne, ← Finset.nonempty_iff_ne_empty]
    constructor
    · rintro ⟨x, hx⟩
      rw [Finset.mem_inter] at hx
      rcases hx with ⟨hxb, hxs⟩
      simp only [Finset.mem_insert, Finset.mem_singleton] at hxs
      rcases hxs with rfl | rfl | rfl | rfl
      · exact Or.inl hxb
      · exact Or.inr (Or.inl hxb)
      · exact Or.inr (Or.inr (Or.inl hxb))
      · exact Or.inr (Or.inr (Or.inr hxb))
    · rintro (hb | hb | hb | hb)
      · exact ⟨Right.fd_datasync, Finset.mem_inter.2 ⟨hb, by simp⟩⟩
      · exact ⟨Right.fd_write, Finset.mem_inter.2 ⟨hb, by simp⟩⟩
      · exact ⟨Right.fd_allocate, Finset.mem_inter.2 ⟨hb, by simp⟩⟩
      · exact ⟨Right.fd_filestat_set_size, Finset.mem_inter.2 ⟨hb, by simp⟩⟩
  · simp only [path_open]
    rcases hg : path_get resolve self (openRights ⟨base, inheriting⟩ oflags fdflags) dirflags p
        (decide (oflags ∩ ({Oflag.creat} : Oflags) ≠ ∅)) with _ | dp
    · rfl
    · simp only [hagree]

/-- Witness for claim C10 at a concrete rights set and agreeing oracles. -/
theorem path_open_read_write_flags_witness :
    (openReadable ({Right.fd_read} : Rights) = true
      ↔ (Right.fd_read ∈ ({Right.fd_read} : Rights)
          ∨ Right.fd_readdir ∈ ({Right.fd_read} : Rights)))
    ∧ (openWritable ({Right.fd_read} : Rights) = true
        ↔ (Right.fd_datasync ∈ ({Right.fd_read} : Rights)
            ∨ Right.fd_write ∈ ({Right.fd_read} : Rights)
            ∨ Right.fd_allocate ∈ ({Right.fd_read} : Rights)
            ∨ Right.fd_filestat_set_size ∈ ({Right.fd_read} : Rights)))
    ∧ path_open demoOpenRights demoResolve demoOpenat demoEntryRightsOf demoDirEntry
        (∅ : Lookupflags) 3 (∅ : Oflags) ({Right.fd_read} : Rights) (∅ : Rights) 0
      = path_open demoOpenRights demoResolve demoOpenat demoEntryRightsOf demoDirEntry
        (∅ : Lookupflags) 3 (∅ : Oflags) ({Right.fd_read} : Rights) (∅ : Rights) 0 :=
  path_open_read_write_flags ({Right.fd_read} : Rights) demoOpenRights demoResolve
    demoOpenat demoOpenat demoEntryRightsOf demoDirEntry (∅ : Lookupflags) 3 (∅ : Oflags)
    (∅ : Rights) 0 (fun _ _ => rfl)

end Wasi

namespace SSA

theorem alookup_cons {α β : Type} [DecidableEq α] (k a : α) (b : β) (l : List (α × β)) :
    alookup k ((a, b) :: l) = if a = k then some b else alookup k l := rfl

theorem alookup_mem {α β : Type} [DecidableEq α] {k : α} {v : β} :
    ∀ {l : List (α × β)}, alookup k l = some v → (k, v) ∈ l := by
  intro l
  induction l with
  | nil => intro h; exact absurd h (by simp [alookup])
  | cons e t ih =>
    intro h
    rw [alookup] at h
    by_cases he : e.1 = k
    · rw [if_pos he] at h
      cases h
      have hke : (k, e.2) = e := by rw [← he]
      rw [hke]
      exact List.mem_cons_self _ _
    · rw [if_neg he] at h
      exact List.mem_cons_of_mem _ (ih h)

theorem alookup_map_remap {ph w : Nat} {k : Nat} :
    ∀ (l : List (Nat × Nat)),
      alookup k (l.map (fun e => (e.1, if e.2 = ph then w else e.2)))
        = (alookup k l).map (fun t => if t = ph then w else t) := by
  intro l
  induction l with
  | nil => rfl
  | cons e t ih =>
    simp only [List.map_cons, alookup]
    by_cases he : e.1 = k
    · rw [if_pos he, if_pos he]; rfl
    · rw [if_neg he, if_neg he]; exact ih

/-- Blocks on which a sealed single-or-zero-predecessor read path applies. -/
def sealedLE1 (s : SSAState) (b : Nat) : Prop :=
  ∃ bd, alookup b s.blocks = some bd ∧ bd.sealed = true ∧ bd.preds.length ≤ 1

/-- A sealed block with zero predecessors. -/
def zeroPredSealed (s : SSAState) (b : Nat) : Prop :=
  ∃ bd, alookup b s.blocks = some bd ∧ bd.sealed = true ∧ bd.preds = []

/-- A sealed block with exactly the one predecessor p. -/
def sealedLE1pred (s : SSAState) (b p : Nat) : Prop :=
  ∃ bd, alookup b s.blocks = some bd ∧ bd.sealed = true ∧ bd.preds = [p]

/-- Well-formedness of the machine state: the indirection table is
path-compressed (no target is a key) with keys below the fresh counter, live
parameter and pending placeholders are below the fresh counter, are not
aliased, do not overlap, pending placeholders are distinct, and block
identifiers are below the block counter. -/
structure WF (s : SSAState) : Prop where
  w1 : ∀ e ∈ s.repl, alookup e.2 s.repl = none
  w2 : ∀ e ∈ s.repl, e.1 < s.nextVal
  w4 : ∀ e ∈ s.phiOps, e.1 < s.nextVal
  w6 : ∀ e ∈ s.phiOps, alookup e.1 s.repl = none
  w5 : ∀ e ∈ s.pending, e.2.2 < s.nextVal
  w7a : ∀ e ∈ s.pending, alookup e.2.2 s.repl = none
  w7b : ∀ e ∈ s.pending, ∀ q ∈ s.phiOps, q.1 ≠ e.2.2
  w8 : (s.pending.map (fun e => e.2.2)).Nodup
  w0 : ∀ e ∈ s.blocks, e.1 < s.nextBlock

theorem canon_eq_of_lookup {s : SSAState} {v w : Nat} (h : alookup v s.repl = some w) :
    canon s v = w := by
  rw [canon, h]

theorem canon_eq_self {s : SSAState} {v : Nat} (h : alookup v s.repl = none) :
    canon s v = v := by
  rw [canon, h]

theorem canon_nonkey {s : SSAState} (hw : WF s) (v : Nat) :
    alookup (canon s v) s.repl = none := by
  rw [canon]
  rcases h : alookup v s.repl with _ | w
  · exact h
  · exact hw.w1 _ (alookup_mem h)

theorem canon_idem {s : SSAState} (hw : WF s) (v : Nat) :
    canon s (canon s v) = canon s v :=
  canon_eq_self (canon_nonkey hw v)

end SSA

namespace SSA

theorem canon_dropPhi (s : SSAState) (ph u : Nat) : canon (dropPhi s ph) u = canon s u := rfl

theorem casc_one_eq (n : Nat) (s : SSAState) (ph : Nat) :
    casc (n + 1) s (.one ph)
      = match alookup ph s.phiOps with
        | none => s
        | some ops =>
          match uniqOf s (canon s ph) ops with
          | [w] => casc n (aliasAdd (dropPhi s ph) ph w) (.many (usersOf s ph (canon s ph)))
          | _ => s := rfl

theorem casc_many_cons_eq (n : Nat) (s : SSAState) (q : Nat) (qs : List Nat) :
    casc (n + 1) s (.many (q :: qs)) = casc n (casc n s (.one q)) (.many qs) := rfl

theorem aliasAdd_canon {t : SSAState} {ph w : Nat} (hkeyph : alookup ph t.repl = none) (u : Nat) :
    canon (aliasAdd t ph w) u = if canon t u = ph then w else canon t u := by
  by_cases hu : u = ph
  · subst hu
    rw [canon_eq_self hkeyph, if_pos rfl]
    exact canon_eq_of_lookup (by rw [aliasAdd, alookup_cons, if_pos rfl])
  · have hl : alookup u (aliasAdd t ph w).repl
        = (alookup u t.repl).map (fun x => if x = ph then w else x) := by
      rw [aliasAdd, alookup_cons, if_neg (fun h => hu h.symm), alookup_map_remap]
    rcases hx : alookup u t.repl with _ | x
    · have hn : alookup u (aliasAdd t ph w).repl = none := by rw [hl, hx]; rfl
      rw [canon_eq_self hn, canon_eq_self hx, if_neg hu]
    · have hs : alookup u (aliasAdd t ph w).repl = some (if x = ph then w else x) := by
        rw [hl, hx]; rfl
      rw [canon_eq_of_lookup hs, canon_eq_of_lookup hx]

theorem aliasAdd_repl_none {t : SSAState} {ph w x : Nat} (hx : alookup x t.repl = none)
    (hxph : x ≠ ph) : alookup x (aliasAdd t ph w).repl = none := by
  rw [aliasAdd, alookup_cons, if_neg (fun h => hxph h.symm), alookup_map_remap, hx]
  rfl

theorem aliasAdd_M {t : SSAState} {ph w : Nat} (hw1 : ∀ e ∈ t.repl, alookup e.2 t.repl = none)
    (hkeyph : alookup ph t.repl = none) (u : Nat) :
    canon (aliasAdd t ph w) (canon t u) = canon (aliasAdd t ph w) u := by
  rw [aliasAdd_canon hkeyph (canon t u), aliasAdd_canon hkeyph u]
  have hidem : canon t (canon t u) = canon t u := by
    rcases h : alookup u t.repl with _ | x
    · rw [canon_eq_self h, canon_eq_self h]
    · rw [canon_eq_of_lookup h]
      exact canon_eq_self (hw1 _ (alookup_mem h))
  rw [hidem]

theorem aliasAdd_WF {t : SSAState} {ph w : Nat} (hw : WF t)
    (_hkeyph : alookup ph t.repl = none) (hkeyw : alookup w t.repl = none)
    (hne : w ≠ ph) (hphlt : ph < t.nextVal)
    (hqph : ∀ q ∈ t.phiOps, q.1 ≠ ph) (hpend : ∀ e ∈ t.pending, e.2.2 ≠ ph) :
    WF (aliasAdd t ph w) := by
  have hrepl : ∀ x, alookup x t.repl = none → x ≠ ph → alookup x (aliasAdd t ph w).repl = none :=
    fun x hx hxph => aliasAdd_repl_none hx hxph
  refine ⟨?_, ?_, hw.w4, ?_, hw.w5, ?_, hw.w7b, hw.w8, hw.w0⟩
  · intro e he
    rw [aliasAdd] at he
    rcases List.mem_cons.1 he with rfl | he
    · exact hrepl w hkeyw hne
    · rcases List.mem_map.1 he with ⟨e0, he0, rfl⟩
      by_cases h0 : e0.2 = ph
      · simp only [h0, if_pos rfl]
        exact hrepl w hkeyw hne
      · simp only [if_neg h0]
        exact hrepl e0.2 (hw.w1 e0 he0) h0
  · intro e he
    rw [aliasAdd] at he
    rcases List.mem_cons.1 he with rfl | he
    · exact hphlt
    · rcases List.mem_map.1 he with ⟨e0, he0, rfl⟩
      exact hw.w2 e0 he0
  · intro e he
    exact hrepl e.1 (hw.w6 e he) (hqph e he)
  · intro e he
    exact hrepl e.2.2 (hw.w7a e he) (hpend e he)

theorem casc_skel : ∀ (n : Nat) (s : SSAState) (r : CReq),
    (casc n s r).blocks = s.blocks ∧ (casc n s r).bindings = s.bindings
    ∧ (casc n s r).pending = s.pending ∧ (casc n s r).nextVal = s.nextVal
    ∧ (casc n s r).nextBlock = s.nextBlock ∧ (casc n s r).policy = s.policy := by
  intro n
  induction n with
  | zero => intro s r; exact ⟨rfl, rfl, rfl, rfl, rfl, rfl⟩
  | succ n ih =>
    intro s r
    match r with
    | .one ph =>
      rw [casc_one_eq]
      split
      · exact ⟨rfl, rfl, rfl, rfl, rfl, rfl⟩
      · split
        · exact ih _ _
        · exact ⟨rfl, rfl, rfl, rfl, rfl, rfl⟩
    | .many [] => exact ⟨rfl, rfl, rfl, rfl, rfl, rfl⟩
    | .many (q :: qs) =>
      rw [casc_many_cons_eq]
      have h1 := ih s (.one q)
      have h2 := ih (casc n s (.one q)) (.many qs)
      exact ⟨h2.1.trans h1.1, h2.2.1.trans h1.2.1, h2.2.2.1.trans h1.2.2.1,
             h2.2.2.2.1.trans h1.2.2.2.1, h2.2.2.2.2.1.trans h1.2.2.2.2.1,
             h2.2.2.2.2.2.trans h1.2.2.2.2.2⟩

end SSA

namespace SSA

theorem dropPhi_WF {s : SSAState} (hw : WF s) (ph : Nat) : WF (dropPhi s ph) := by
  refine ⟨hw.w1, hw.w2, ?_, ?_, hw.w5, hw.w7a, ?_, hw.w8, hw.w0⟩
  · intro e he
    exact hw.w4 e (List.mem_filter.1 he).1
  · intro e he
    exact hw.w6 e (List.mem_filter.1 he).1
  · intro e he q hq
    exact hw.w7b e he q (List.mem_filter.1 hq).1

theorem casc_one_id (n : Nat) (s : SSAState) (ph : Nat) (h : alookup ph s.phiOps = none) :
    casc (n + 1) s (.one ph) = s := by
  rw [casc_one_eq, h]

theorem casc_one_step (n : Nat) (s : SSAState) (ph : Nat) (ops : List Nat) (w : Nat)
    (hops : alookup ph s.phiOps = some ops) (hwuq : uniqOf s (canon s ph) ops = [w]) :
    casc (n + 1) s (.one ph)
      = casc n (aliasAdd (dropPhi s ph) ph w) (.many (usersOf s ph (canon s ph))) := by
  rw [casc_one_eq, hops]
  show (match uniqOf s (canon s ph) ops with
    | [w] => casc n (aliasAdd (dropPhi s ph) ph w) (.many (usersOf s ph (canon s ph)))
    | _ => s) = _
  rw [hwuq]

theorem casc_one_keep (n : Nat) (s : SSAState) (ph : Nat) (ops : List Nat)
    (hops : alookup ph s.phiOps = some ops) (hk : ∀ w, uniqOf s (canon s ph) ops ≠ [w]) :
    casc (n + 1) s (.one ph) = s := by
  rw [casc_one_eq, hops]
  show (match uniqOf s (canon s ph) ops with
    | [w] => casc n (aliasAdd (dropPhi s ph) ph w) (.many (usersOf s ph (canon s ph)))
    | _ => s) = _
  rcases h : uniqOf s (canon s ph) ops with _ | ⟨w, _ | ⟨w2, tl⟩⟩
  · rfl
  · exact absurd h (hk w)
  · rfl

theorem casc_main : ∀ (n : Nat) (s : SSAState) (r : CReq), WF s →
    WF (casc n s r)
    ∧ (∀ u, canon (casc n s r) (canon s u) = canon (casc n s r) u)
    ∧ (∀ x, alookup x s.repl = none → (∀ q ∈ s.phiOps, q.1 ≠ x) →
        alookup x (casc n s r).repl = none)
    ∧ (∀ e ∈ (casc n s r).params, e ∈ s.params)
    ∧ (∀ q ∈ (casc n s r).phiOps, q ∈ s.phiOps) := by
  intro n
  induction n with
  | zero =>
    intro s r hw
    exact ⟨hw, canon_idem hw, fun x hx _ => hx, fun e he => he, fun q hq => hq⟩
  | succ n ih =>
    intro s r hw
    match r with
    | .one ph =>
      rcases hops : alookup ph s.phiOps with _ | ops
      · rw [casc_one_id n s ph hops]
        exact ⟨hw, canon_idem hw, fun x hx _ => hx, fun e he => he, fun q hq => hq⟩
      · rcases hwuq : uniqOf s (canon s ph) ops with _ | ⟨w, _ | ⟨w2, tl⟩⟩
        · rw [casc_one_keep n s ph ops hops (fun w h => by rw [hwuq] at h; cases h)]
          exact ⟨hw, canon_idem hw, fun x hx _ => hx, fun e he => he, fun q hq => hq⟩
        · rw [casc_one_step n s ph ops w hops hwuq]
          have hphmem : (ph, ops) ∈ s.phiOps := alookup_mem hops
          have hkeyph : alookup ph s.repl = none := hw.w6 _ hphmem
          have hwmem : w ∈ uniqOf s (canon s ph) ops := by
            rw [hwuq]; exact List.mem_cons_self _ _
          have hwf0 : w ∈ (ops.map (canon s)).filter (fun x => decide (x ≠ canon s ph)) :=
            List.mem_dedup.1 hwmem
          rcases List.mem_filter.1 hwf0 with ⟨hwmap, hwne⟩
          have hwneq : w ≠ ph := by
            rw [canon_eq_self hkeyph] at hwne
            exact of_decide_eq_true hwne
          have hkeyw : alookup w s.repl = none := by
            rcases List.mem_map.1 hwmap with ⟨u0, _, rfl⟩
            exact canon_nonkey hw u0
          have hqdrop : ∀ q ∈ (dropPhi s ph).phiOps, q.1 ≠ ph := by
            intro q hq
            exact of_decide_eq_true (List.mem_filter.1 hq).2
          have hpnd : ∀ e ∈ (dropPhi s ph).pending, e.2.2 ≠ ph := by
            intro e he
            exact fun h => (hw.w7b e he _ hphmem) h.symm
          have hwft : WF (aliasAdd (dropPhi s ph) ph w) :=
            aliasAdd_WF (dropPhi_WF hw ph) hkeyph hkeyw hwneq (hw.w4 _ hphmem) hqdrop hpnd
          rcases ih (aliasAdd (dropPhi s ph) ph w) (.many (usersOf s ph (canon s ph))) hwft
            with ⟨hwfF, hMF, hXF, hPF, hQF⟩
          refine ⟨hwfF, ?_, ?_, ?_, ?_⟩
          · intro u
            have hMa : canon (aliasAdd (dropPhi s ph) ph w) (canon s u)
                = canon (aliasAdd (dropPhi s ph) ph w) u :=
              aliasAdd_M hw.w1 hkeyph u
            calc canon _ (canon s u)
                = canon _ (canon (aliasAdd (dropPhi s ph) ph w) (canon s u)) :=
                  (hMF (canon s u)).symm
              _ = canon _ (canon (aliasAdd (dropPhi s ph) ph w) u) := by rw [hMa]
              _ = canon _ u := hMF u
          · intro x hx hqx
            have hxph : x ≠ ph := fun h => (hqx _ hphmem) h.symm
            refine hXF x (aliasAdd_repl_none hx hxph) ?_
            intro q hq
            exact hqx q (List.mem_filter.1 hq).1
          · intro e he
            exact (List.mem_filter.1 (hPF e he)).1
          · intro q hq
            exact (List.mem_filter.1 (hQF q hq)).1
        · rw [casc_one_keep n s ph ops hops
            (fun w0 h => by rw [hwuq] at h; injection h with h1 h2; cases h2)]
          exact ⟨hw, canon_idem hw, fun x hx _ => hx, fun e he => he, fun q hq => hq⟩
    | .many [] => exact ⟨hw, canon_idem hw, fun x hx _ => hx, fun e he => he, fun q hq => hq⟩
    | .many (q :: qs) =>
      rw [casc_many_cons_eq]
      rcases ih s (.one q) hw with ⟨hwf1, hM1, hX1, hP1, hQ1⟩
      rcases ih (casc n s (.one q)) (.many qs) hwf1 with ⟨hwf2, hM2, hX2, hP2, hQ2⟩
      refine ⟨hwf2, ?_, ?_, fun e he => hP1 e (hP2 e he), fun p hp => hQ1 p (hQ2 p hp)⟩
      · intro u
        calc canon _ (canon s u)
            = canon _ (canon (casc n s (.one q)) (canon s u)) := (hM2 (canon s u)).symm
          _ = canon _ (canon (casc n s (.one q)) u) := by rw [hM1 u]
          _ = canon _ u := hM2 u
      · intro x hx hqx
        exact hX2 x (hX1 x hx hqx) (fun p hp => hqx p (hQ1 p hp))

end SSA

namespace SSA

/-- How one engine step may evolve the state: the block graph is untouched,
the fresh counter grows, well-formedness is kept, aliasing only refines the
canonical map (M), Resolved / Defined / InProgress bindings persist exactly
(R, D, I), a changed binding is Resolved, or Defined on a sealed zero-
predecessor block, or InProgress on a block that is not sealed with at most
one predecessor (B), binding transitions are canon-coherent (T), parameters
are only created for blocks that are not sealed with at most one predecessor
(P), pending placeholders are only added fresh (pend), and a Resolved
binding newly cached on a sealed one-predecessor block is canon-coherent
with the predecessor's binding (SPCn). -/
structure Evo (s s2 : SSAState) : Prop where
  blocks : s2.blocks = s.blocks
  nv : s.nextVal ≤ s2.nextVal
  wf : WF s2
  M : ∀ u, canon s2 (canon s u) = canon s2 u
  R : ∀ b v x, alookup (b, v) s.bindings = some (.Resolved x) →
      alookup (b, v) s2.bindings = some (.Resolved x)
  D : ∀ b v x, alookup (b, v) s.bindings = some (.Defined x) →
      alookup (b, v) s2.bindings = some (.Defined x)
  I : ∀ b v x, alookup (b, v) s.bindings = some (.InProgress x) →
      alookup (b, v) s2.bindings = some (.InProgress x)
  B : ∀ b v, alookup (b, v) s2.bindings = alookup (b, v) s.bindings
      ∨ (∃ x, alookup (b, v) s2.bindings = some (.Resolved x))
      ∨ (∃ x, alookup (b, v) s2.bindings = some (.Defined x) ∧ zeroPredSealed s b)
      ∨ (∃ x, alookup (b, v) s2.bindings = some (.InProgress x) ∧ ¬ sealedLE1 s b)
  T : ∀ b v bind, alookup (b, v) s.bindings = some bind →
      ∃ bind2, alookup (b, v) s2.bindings = some bind2
        ∧ canon s2 (bindVal bind2) = canon s2 (bindVal bind)
  P : ∀ e ∈ s2.params, e ∈ s.params ∨ ¬ sealedLE1 s e.1
  pend : ∀ e ∈ s2.pending, e ∈ s.pending ∨ s.nextVal ≤ e.2.2
  SPCn : ∀ b p v x, sealedLE1pred s b p → alookup (b, v) s.bindings = none →
      alookup (b, v) s2.bindings = some (.Resolved x) →
      ∃ bind, alookup (p, v) s2.bindings = some bind
        ∧ canon s2 (bindVal bind) = canon s2 x

theorem zeroPredSealed_congr {s s1 : SSAState} (h : s1.blocks = s.blocks) (b : Nat) :
    zeroPredSealed s1 b ↔ zeroPredSealed s b := by
  unfold zeroPredSealed
  rw [h]

theorem sealedLE1_congr {s s1 : SSAState} (h : s1.blocks = s.blocks) (b : Nat) :
    sealedLE1 s1 b ↔ sealedLE1 s b := by
  unfold sealedLE1
  rw [h]

theorem sealedLE1pred_congr {s s1 : SSAState} (h : s1.blocks = s.blocks) (b p : Nat) :
    sealedLE1pred s1 b p ↔ sealedLE1pred s b p := by
  unfold sealedLE1pred
  rw [h]

theorem sealedLE1pred_LE1 {s : SSAState} {b p : Nat} (h : sealedLE1pred s b p) :
    sealedLE1 s b := by
  rcases h with ⟨bd, hbd, hs, hp⟩
  exact ⟨bd, hbd, hs, by rw [hp]; exact Nat.le_refl 1⟩

theorem sealedLE1pred_not_zero {s : SSAState} {b p : Nat} (h : sealedLE1pred s b p) :
    ¬ zeroPredSealed s b := by
  rcases h with ⟨bd, hbd, _, hp⟩
  rintro ⟨bd2, hbd2, _, hp2⟩
  rw [hbd] at hbd2
  cases hbd2
  rw [hp] at hp2
  cases hp2

theorem Evo.same {s : SSAState} (hw : WF s) : Evo s s :=
  ⟨rfl, Nat.le_refl _, hw, canon_idem hw,
   fun _ _ _ h => h, fun _ _ _ h => h, fun _ _ _ h => h,
   fun _ _ => Or.inl rfl,
   fun _ _ bind h => ⟨bind, h, rfl⟩,
   fun e _ => Or.inl (by assumption),
   fun e _ => Or.inl (by assumption),
   fun _ _ _ x _ h0 h2 => absurd (h0.symm.trans h2) (by simp)⟩

theorem Evo.comp {s s1 s2 : SSAState} (e1 : Evo s s1) (e2 : Evo s1 s2) : Evo s s2 := by
  have hM : ∀ u, canon s2 (canon s u) = canon s2 u := by
    intro u
    calc canon s2 (canon s u) = canon s2 (canon s1 (canon s u)) := (e2.M (canon s u)).symm
      _ = canon s2 (canon s1 u) := by rw [e1.M u]
      _ = canon s2 u := e2.M u
  have hMe : ∀ a c, canon s1 a = canon s1 c → canon s2 a = canon s2 c := by
    intro a c h
    calc canon s2 a = canon s2 (canon s1 a) := (e2.M a).symm
      _ = canon s2 (canon s1 c) := by rw [h]
      _ = canon s2 c := e2.M c
  refine ⟨e2.blocks.trans e1.blocks, Nat.le_trans e1.nv e2.nv, e2.wf, hM,
    fun b v x h => e2.R b v x (e1.R b v x h),
    fun b v x h => e2.D b v x (e1.D b v x h),
    fun b v x h => e2.I b v x (e1.I b v x h),
    ?_, ?_, ?_, ?_, ?_⟩
  · intro b v
    rcases e2.B b v with h2 | h2 | h2 | h2
    · rcases e1.B b v with h1 | h1 | h1 | h1
      · exact Or.inl (h2.trans h1)
      · exact Or.inr (Or.inl ⟨h1.choose, h2.trans h1.choose_spec⟩)
      · exact Or.inr (Or.inr (Or.inl ⟨h1.choose, h2.trans h1.choose_spec.1, h1.choose_spec.2⟩))
      · exact Or.inr (Or.inr (Or.inr ⟨h1.choose, h2.trans h1.choose_spec.1, h1.choose_spec.2⟩))
    · exact Or.inr (Or.inl h2)
    · exact Or.inr (Or.inr (Or.inl ⟨h2.choose, h2.choose_spec.1,
        ((zeroPredSealed_congr e1.blocks b).1 h2.choose_spec.2)⟩))
    · exact Or.inr (Or.inr (Or.inr ⟨h2.choose, h2.choose_spec.1,
        fun hc => h2.choose_spec.2 ((sealedLE1_congr e1.blocks b).2 hc)⟩))
  · intro b v bind h
    rcases e1.T b v bind h with ⟨bind1, hb1, hc1⟩
    rcases e2.T b v bind1 hb1 with ⟨bind2, hb2, hc2⟩
    exact ⟨bind2, hb2, hc2.trans (hMe _ _ hc1)⟩
  · intro e he
    rcases e2.P e he with h2 | h2
    · rcases e1.P e h2 with h1 | h1
      · exact Or.inl h1
      · exact Or.inr h1
    · exact Or.inr (fun hc => h2 ((sealedLE1_congr e1.blocks e.1).2 hc))
  · intro e he
    rcases e2.pend e he with h2 | h2
    · rcases e1.pend e h2 with h1 | h1
      · exact Or.inl h1
      · exact Or.inr h1
    · exact Or.inr (Nat.le_trans e1.nv h2)
  · intro b p v x hpred h0 h2
    rcases hb1 : alookup (b, v) s1.bindings with _ | bind1
    · exact e2.SPCn b p v x ((sealedLE1pred_congr e1.blocks b p).2 hpred) hb1 h2
    · rcases e1.B b v with h1 | h1 | h1 | h1
      · rw [h0] at h1
        rw [h1] at hb1
        cases hb1
      · rcases h1 with ⟨x1, h1⟩
        rw [h1] at hb1
        cases hb1
        have hr2 : alookup (b, v) s2.bindings = some (.Resolved x1) := e2.R b v x1 h1
        rw [h2] at hr2
        cases hr2
        rcases e1.SPCn b p v x hpred h0 h1 with ⟨bindp, hbp, hcp⟩
        rcases e2.T p v bindp hbp with ⟨bindp2, hbp2, hcp2⟩
        exact ⟨bindp2, hbp2, hcp2.trans (hMe _ _ hcp)⟩
      · exact absurd h1.choose_spec.2 (fun hz => (sealedLE1pred_not_zero hpred) hz)
      · exact absurd (sealedLE1pred_LE1 hpred) h1.choose_spec.2

end SSA

namespace SSA

theorem nonkey_of_ge {s : SSAState} (hw : WF s) {x : Nat} (h : s.nextVal ≤ x) :
    alookup x s.repl = none := by
  rcases hl : alookup x s.repl with _ | y
  · rfl
  · exact absurd (hw.w2 _ (alookup_mem hl)) (Nat.not_lt.2 h)

theorem Evo_casc {s : SSAState} (hw : WF s) (n : Nat) (r : CReq) : Evo s (casc n s r) := by
  rcases casc_main n s r hw with ⟨hwf, hM, _, hP, _⟩
  rcases casc_skel n s r with ⟨hb, hbind, hpend, hnv, _, _⟩
  refine ⟨hb, Nat.le_of_eq hnv.symm, hwf, hM,
    fun b v x h => by rw [hbind]; exact h,
    fun b v x h => by rw [hbind]; exact h,
    fun b v x h => by rw [hbind]; exact h,
    fun b v => Or.inl (by rw [hbind]),
    fun b v bind h => ⟨bind, by rw [hbind]; exact h, rfl⟩,
    fun e he => Or.inl (hP e he),
    fun e he => Or.inl (by rw [hpend] at he; exact he),
    fun b p v x _ h0 h2 => ?_⟩
  rw [hbind, h0] at h2
  cases h2

theorem Evo_writeDefined {s : SSAState} (hw : WF s) {b v d : Nat}
    (h0 : alookup (b, v) s.bindings = none) (hz : zeroPredSealed s b) :
    Evo s { s with bindings := ((b, v), .Defined d) :: s.bindings } := by
  have hlk : ∀ b' v', alookup (b', v') ({ s with bindings := ((b, v), .Defined d) :: s.bindings } : SSAState).bindings
      = if (b, v) = (b', v') then some (.Defined d) else alookup (b', v') s.bindings :=
    fun b' v' => alookup_cons (b', v') (b, v) (.Defined d) s.bindings
  refine ⟨rfl, Nat.le_refl _, ⟨hw.w1, hw.w2, hw.w4, hw.w6, hw.w5, hw.w7a, hw.w7b, hw.w8, hw.w0⟩,
    fun u => canon_idem hw u, ?_, ?_, ?_, ?_, ?_, fun e he => Or.inl he, fun e he => Or.inl he, ?_⟩
  · intro b' v' x h
    rw [hlk]
    by_cases hk : (b, v) = (b', v')
    · rw [← hk] at h
      rw [h0] at h
      cases h
    · rw [if_neg hk]
      exact h
  · intro b' v' x h
    rw [hlk]
    by_cases hk : (b, v) = (b', v')
    · rw [← hk] at h
      rw [h0] at h
      cases h
    · rw [if_neg hk]
      exact h
  · intro b' v' x h
    rw [hlk]
    by_cases hk : (b, v) = (b', v')
    · rw [← hk] at h
      rw [h0] at h
      cases h
    · rw [if_neg hk]
      exact h
  · intro b' v'
    by_cases hk : (b, v) = (b', v')
    · refine Or.inr (Or.inr (Or.inl ⟨d, ?_, ?_⟩))
      · rw [hlk, if_pos hk]
      · cases hk
        exact hz
    · exact Or.inl (by rw [hlk, if_neg hk])
  · intro b' v' bind h
    by_cases hk : (b, v) = (b', v')
    · rw [← hk] at h
      rw [h0] at h
      cases h
    · exact ⟨bind, by rw [hlk, if_neg hk]; exact h, rfl⟩
  · intro b' p v' x _ h0' h2
    rw [hlk] at h2
    by_cases hk : (b, v) = (b', v')
    · rw [if_pos hk] at h2
      cases h2
    · rw [if_neg hk, h0'] at h2
      cases h2

end SSA

namespace SSA

theorem Evo_mint {s : SSAState} (hw : WF s) {b v : Nat}
    (h0 : alookup (b, v) s.bindings = none) (hns : ¬ sealedLE1 s b) :
    Evo s { s with nextVal := s.nextVal + 1, params := (b, v, s.nextVal) :: s.params,
                   bindings := ((b, v), .InProgress s.nextVal) :: s.bindings } := by
  have hlk : ∀ b' v' (s2 : SSAState), s2.bindings = ((b, v), Binding.InProgress s.nextVal) :: s.bindings →
      alookup (b', v') s2.bindings
        = if (b, v) = (b', v') then some (.InProgress s.nextVal) else alookup (b', v') s.bindings := by
    intro b' v' s2 h
    rw [h]
    exact alookup_cons (b', v') (b, v) (.InProgress s.nextVal) s.bindings
  refine ⟨rfl, Nat.le_succ _,
    ⟨hw.w1, fun e he => Nat.lt_succ_of_lt (hw.w2 e he), fun e he => Nat.lt_succ_of_lt (hw.w4 e he),
     hw.w6, fun e he => Nat.lt_succ_of_lt (hw.w5 e he), hw.w7a, hw.w7b, hw.w8, hw.w0⟩,
    fun u => canon_idem hw u, ?_, ?_, ?_, ?_, ?_, ?_, fun e he => Or.inl he, ?_⟩
  · intro b' v' x h
    rw [hlk b' v' _ rfl]
    by_cases hk : (b, v) = (b', v')
    · rw [← hk, h0] at h
      cases h
    · rw [if_neg hk]
      exact h
  · intro b' v' x h
    rw [hlk b' v' _ rfl]
    by_cases hk : (b, v) = (b', v')
    · rw [← hk, h0] at h
      cases h
    · rw [if_neg hk]
      exact h
  · intro b' v' x h
    rw [hlk b' v' _ rfl]
    by_cases hk : (b, v) = (b', v')
    · rw [← hk, h0] at h
      cases h
    · rw [if_neg hk]
      exact h
  · intro b' v'
    by_cases hk : (b, v) = (b', v')
    · refine Or.inr (Or.inr (Or.inr ⟨s.nextVal, ?_, ?_⟩))
      · rw [hlk b' v' _ rfl, if_pos hk]
      · cases hk
        exact hns
    · exact Or.inl (by rw [hlk b' v' _ rfl, if_neg hk])
  · intro b' v' bind h
    by_cases hk : (b, v) = (b', v')
    · rw [← hk, h0] at h
      cases h
    · exact ⟨bind, by rw [hlk b' v' _ rfl, if_neg hk]; exact h, rfl⟩
  · intro e he
    rcases List.mem_cons.1 he with rfl | he
    · exact Or.inr hns
    · exact Or.inl he
  · intro b' p v' x _ h0' h2
    rw [hlk b' v' _ rfl] at h2
    by_cases hk : (b, v) = (b', v')
    · rw [if_pos hk] at h2
      cases h2
    · rw [if_neg hk, h0'] at h2
      cases h2

theorem Evo_mintPending {s : SSAState} (hw : WF s) {b v : Nat}
    (h0 : alookup (b, v) s.bindings = none) (hns : ¬ sealedLE1 s b) :
    Evo s { s with nextVal := s.nextVal + 1, params := (b, v, s.nextVal) :: s.params,
                   bindings := ((b, v), .InProgress s.nextVal) :: s.bindings,
                   pending := (b, v, s.nextVal) :: s.pending } := by
  have hbase := Evo_mint hw h0 hns
  refine ⟨hbase.blocks, hbase.nv, ?_, hbase.M, hbase.R, hbase.D, hbase.I, hbase.B, hbase.T,
    hbase.P, ?_, hbase.SPCn⟩
  · refine ⟨hbase.wf.w1, hbase.wf.w2, hbase.wf.w4, hbase.wf.w6, ?_, ?_, ?_, ?_, hbase.wf.w0⟩
    · intro e he
      rcases List.mem_cons.1 he with rfl | he
      · exact Nat.lt_succ_self _
      · exact Nat.lt_succ_of_lt (hw.w5 e he)
    · intro e he
      rcases List.mem_cons.1 he with rfl | he
      · exact nonkey_of_ge hw (Nat.le_refl _)
      · exact hw.w7a e he
    · intro e he q hq
      rcases List.mem_cons.1 he with rfl | he
      · exact Nat.ne_of_lt (hw.w4 q hq)
      · exact hw.w7b e he q hq
    · refine List.Nodup.cons ?_ hw.w8
      intro hmem
      rcases List.mem_map.1 hmem with ⟨e, he, hee⟩
      exact absurd hee (Nat.ne_of_lt (hw.w5 e he))
  · intro e he
    rcases List.mem_cons.1 he with rfl | he
    · exact Or.inr (Nat.le_refl _)
    · exact Or.inl he

theorem Evo_phiOpsCons {s1 : SSAState} (hw1 : WF s1) {ph : Nat} (vals : List Nat)
    (hlt : ph < s1.nextVal) (hnk : alookup ph s1.repl = none)
    (hpnd : ∀ e ∈ s1.pending, e.2.2 ≠ ph) :
    Evo s1 { s1 with phiOps := (ph, vals) :: s1.phiOps } := by
  refine ⟨rfl, Nat.le_refl _,
    ⟨hw1.w1, hw1.w2, ?_, ?_, hw1.w5, hw1.w7a, ?_, hw1.w8, hw1.w0⟩,
    fun u => canon_idem hw1 u,
    fun _ _ _ h => h, fun _ _ _ h => h, fun _ _ _ h => h,
    fun _ _ => Or.inl (by rfl),
    fun _ _ bind h => ⟨bind, h, rfl⟩,
    fun e he => Or.inl he, fun e he => Or.inl he, ?_⟩
  · intro e he
    rcases List.mem_cons.1 he with rfl | he
    · exact hlt
    · exact hw1.w4 e he
  · intro e he
    rcases List.mem_cons.1 he with rfl | he
    · exact hnk
    · exact hw1.w6 e he
  · intro e he q hq
    rcases List.mem_cons.1 hq with rfl | hq
    · exact fun h => hpnd e he h.symm
    · exact hw1.w7b e he q hq
  · intro b p v x _ h0 h2
    rw [h0] at h2
    cases h2

end SSA

namespace SSA

theorem Evo_writeResolved {s s2 : SSAState} (e : Evo s s2) {b v w : Nat}
    (h0 : alookup (b, v) s.bindings = none)
    (hcur : alookup (b, v) s2.bindings = none
        ∨ ∃ ph, alookup (b, v) s2.bindings = some (.InProgress ph) ∧ w = canon s2 ph)
    (hW : canon s2 w = w)
    (hSPC : ∀ p, sealedLE1pred s b p → p ≠ b →
        ∃ bind, alookup (p, v) s2.bindings = some bind ∧ canon s2 (bindVal bind) = w) :
    Evo s { s2 with bindings := ((b, v), .Resolved w) :: s2.bindings } := by
  have hlk : ∀ b' v', alookup (b', v')
        ({ s2 with bindings := ((b, v), .Resolved w) :: s2.bindings } : SSAState).bindings
      = if (b, v) = (b', v') then some (.Resolved w) else alookup (b', v') s2.bindings :=
    fun b' v' => alookup_cons (b', v') (b, v) (.Resolved w) s2.bindings
  refine ⟨e.blocks, e.nv,
    ⟨e.wf.w1, e.wf.w2, e.wf.w4, e.wf.w6, e.wf.w5, e.wf.w7a, e.wf.w7b, e.wf.w8, e.wf.w0⟩,
    fun u => e.M u, ?_, ?_, ?_, ?_, ?_, e.P, e.pend, ?_⟩
  · intro b' v' x h
    rw [hlk]
    by_cases hk : (b, v) = (b', v')
    · rw [← hk, h0] at h
      cases h
    · rw [if_neg hk]
      exact e.R b' v' x h
  · intro b' v' x h
    rw [hlk]
    by_cases hk : (b, v) = (b', v')
    · rw [← hk, h0] at h
      cases h
    · rw [if_neg hk]
      exact e.D b' v' x h
  · intro b' v' x h
    rw [hlk]
    by_cases hk : (b, v) = (b', v')
    · rw [← hk, h0] at h
      cases h
    · rw [if_neg hk]
      exact e.I b' v' x h
  · intro b' v'
    by_cases hk : (b, v) = (b', v')
    · exact Or.inr (Or.inl ⟨w, by rw [hlk, if_pos hk]⟩)
    · rcases e.B b' v' with h | h | h | h
      · exact Or.inl (by rw [hlk, if_neg hk]; exact h)
      · exact Or.inr (Or.inl ⟨h.choose, by rw [hlk, if_neg hk]; exact h.choose_spec⟩)
      · exact Or.inr (Or.inr (Or.inl ⟨h.choose, by rw [hlk, if_neg hk]; exact h.choose_spec.1,
          h.choose_spec.2⟩))
      · exact Or.inr (Or.inr (Or.inr ⟨h.choose, by rw [hlk, if_neg hk]; exact h.choose_spec.1,
          h.choose_spec.2⟩))
  · intro b' v' bind h
    by_cases hk : (b, v) = (b', v')
    · rw [← hk, h0] at h
      cases h
    · rcases e.T b' v' bind h with ⟨bind2, hb2, hc2⟩
      exact ⟨bind2, by rw [hlk, if_neg hk]; exact hb2, hc2⟩
  · intro b' p v' x hpred h0' h2
    rw [hlk] at h2
    by_cases hk : (b, v) = (b', v')
    · rw [if_pos hk] at h2
      have hbb : b = b' := congrArg Prod.fst hk
      have hvv : v = v' := congrArg Prod.snd hk
      subst hbb
      subst hvv
      have hxw : x = w := by
        injection h2 with h2'
        injection h2' with h2''
        exact h2''.symm
      subst hxw
      by_cases hpb : p = b
      · subst hpb
        exact ⟨.Resolved x, by rw [hlk, if_pos rfl], rfl⟩
      · rcases hSPC p hpred hpb with ⟨bind, hbind, hcoh⟩
        refine ⟨bind, ?_, ?_⟩
        · rw [hlk, if_neg (fun hc => hpb (congrArg Prod.fst hc).symm)]
          exact hbind
        · show canon s2 (bindVal bind) = canon s2 x
          rw [hcoh, hW]
    · rw [if_neg hk] at h2
      rcases e.SPCn b' p v' x hpred h0' h2 with ⟨bindp, hbp, hcp⟩
      by_cases hpv : (b, v) = (p, v')
      · rcases hcur with hnone | ⟨ph, hip, hwc⟩
        · rw [← hpv, hnone] at hbp
          cases hbp
        · rw [← hpv, hip] at hbp
          have hbeq : bindp = .InProgress ph := by
            injection hbp with h'
            exact h'.symm
          subst hbeq
          refine ⟨.Resolved w, by rw [hlk, if_pos hpv], ?_⟩
          show canon s2 w = canon s2 x
          rw [hW, hwc]
          exact hcp
      · refine ⟨bindp, by rw [hlk, if_neg hpv]; exact hbp, hcp⟩

end SSA

namespace SSA

theorem exec_rv_eq (fuel : Nat) (s : SSAState) (b v : Nat) :
    exec (fuel + 1) s (.rv b v)
      = match alookup (b, v) s.bindings with
        | some (.Defined x) => .rvOk (canon s x) s
        | some (.Resolved x) => .rvOk (canon s x) s
        | some (.InProgress ph) => .rvOk (canon s ph) s
        | none =>
          match alookup b s.blocks with
          | none => .err .noBlock
          | some bd =>
            if bd.sealed then
              match bd.preds with
              | [] =>
                match s.policy with
                | some d => .rvOk (canon s d) { s with bindings := ((b, v), .Defined d) :: s.bindings }
                | none => .err .uninitializedVariable
              | [p] =>
                match exec fuel s (.rv p v) with
                | .rvOk w s1 =>
                  .rvOk (cacheResolvedPair s1 b v w).1 (cacheResolvedPair s1 b v w).2
                | .err e => .err e
                | _ => .err .fuel
              | _ =>
                match exec fuel
                    { s with nextVal := s.nextVal + 1, params := (b, v, s.nextVal) :: s.params,
                             bindings := ((b, v), .InProgress s.nextVal) :: s.bindings }
                    (.wp b v s.nextVal bd.preds) with
                | .wpOk s2 =>
                  .rvOk (cacheResolvedPair s2 b v (canon s2 s.nextVal)).1
                    (cacheResolvedPair s2 b v (canon s2 s.nextVal)).2
                | .err e => .err e
                | _ => .err .fuel
            else
              .rvOk s.nextVal
                { s with nextVal := s.nextVal + 1, params := (b, v, s.nextVal) :: s.params,
                         bindings := ((b, v), .InProgress s.nextVal) :: s.bindings,
                         pending := (b, v, s.nextVal) :: s.pending } := rfl

theorem exec_wp_eq (fuel : Nat) (s : SSAState) (b v ph : Nat) (preds : List Nat) :
    exec (fuel + 1) s (.wp b v ph preds)
      = match exec fuel s (.rp v preds) with
        | .rpOk vals s1 =>
          .wpOk (removeTrivialCascade fuel { s1 with phiOps := (ph, vals) :: s1.phiOps } ph)
        | .err e => .err e
        | _ => .err .fuel := rfl

theorem exec_rp_nil_eq (fuel : Nat) (s : SSAState) (v : Nat) :
    exec (fuel + 1) s (.rp v []) = .rpOk [] s := rfl

theorem exec_rp_cons_eq (fuel : Nat) (s : SSAState) (v p : Nat) (ps : List Nat) :
    exec (fuel + 1) s (.rp v (p :: ps))
      = match exec fuel s (.rv p v) with
        | .rvOk w s1 =>
          match exec fuel s1 (.rp v ps) with
          | .rpOk vs s2 => .rpOk (w :: vs) s2
          | .err e => .err e
          | _ => .err .fuel
        | .err e => .err e
        | _ => .err .fuel := rfl

end SSA

namespace SSA

theorem exec_rv_defined {s : SSAState} {b v x : Nat} (fuel : Nat)
    (h : alookup (b, v) s.bindings = some (.Defined x)) :
    exec (fuel + 1) s (.rv b v) = .rvOk (canon s x) s := by
  rw [exec_rv_eq, h]

theorem exec_rv_resolved {s : SSAState} {b v x : Nat} (fuel : Nat)
    (h : alookup (b, v) s.bindings = some (.Resolved x)) :
    exec (fuel + 1) s (.rv b v) = .rvOk (canon s x) s := by
  rw [exec_rv_eq, h]

theorem exec_rv_inprogress {s : SSAState} {b v ph : Nat} (fuel : Nat)
    (h : alookup (b, v) s.bindings = some (.InProgress ph)) :
    exec (fuel + 1) s (.rv b v) = .rvOk (canon s ph) s := by
  rw [exec_rv_eq, h]

theorem exec_rv_none_eq {s : SSAState} {b v : Nat} (fuel : Nat)
    (h : alookup (b, v) s.bindings = none) {bd : BlockData}
    (hblk : alookup b s.blocks = some bd) :
    exec (fuel + 1) s (.rv b v)
      = if bd.sealed then
          match bd.preds with
          | [] =>
            match s.policy with
            | some d => .rvOk (canon s d) { s with bindings := ((b, v), .Defined d) :: s.bindings }
            | none => .err .uninitializedVariable
          | [p] =>
            match exec fuel s (.rv p v) with
            | .rvOk w s1 =>
              .rvOk (cacheResolvedPair s1 b v w).1 (cacheResolvedPair s1 b v w).2
            | .err e => .err e
            | _ => .err .fuel
          | _ =>
            match exec fuel
                { s with nextVal := s.nextVal + 1, params := (b, v, s.nextVal) :: s.params,
                         bindings := ((b, v), .InProgress s.nextVal) :: s.bindings }
                (.wp b v s.nextVal bd.preds) with
            | .wpOk s2 =>
              .rvOk (cacheResolvedPair s2 b v (canon s2 s.nextVal)).1
                (cacheResolvedPair s2 b v (canon s2 s.nextVal)).2
            | .err e => .err e
            | _ => .err .fuel
        else
          .rvOk s.nextVal
            { s with nextVal := s.nextVal + 1, params := (b, v, s.nextVal) :: s.params,
                     bindings := ((b, v), .InProgress s.nextVal) :: s.bindings,
                     pending := (b, v, s.nextVal) :: s.pending } := by
  rw [exec_rv_eq, h]
  show (match alookup b s.blocks with
    | none => Res.err .noBlock
    | some bd => _) = _
  rw [hblk]

end SSA

namespace SSA

theorem exec_rv_policy {s : SSAState} {b v : Nat} (fuel : Nat)
    (h : alookup (b, v) s.bindings = none) {bd : BlockData}
    (hblk : alookup b s.blocks = some bd) (hsl : bd.sealed = true) (hpds : bd.preds = [])
    {d : Nat} (hpol : s.policy = some d) :
    exec (fuel + 1) s (.rv b v)
      = .rvOk (canon s d) { s with bindings := ((b, v), .Defined d) :: s.bindings } := by
  rw [exec_rv_none_eq fuel h hblk, if_pos hsl, hpds]
  show (match s.policy with
    | some d => Res.rvOk (canon s d) { s with bindings := ((b, v), .Defined d) :: s.bindings }
    | none => Res.err .uninitializedVariable) = _
  rw [hpol]

theorem exec_rv_uninit {s : SSAState} {b v : Nat} (fuel : Nat)
    (h : alookup (b, v) s.bindings = none) {bd : BlockData}
    (hblk : alookup b s.blocks = some bd) (hsl : bd.sealed = true) (hpds : bd.preds = [])
    (hpol : s.policy = none) :
    exec (fuel + 1) s (.rv b v) = .err .uninitializedVariable := by
  rw [exec_rv_none_eq fuel h hblk, if_pos hsl, hpds]
  show (match s.policy with
    | some d => Res.rvOk (canon s d) { s with bindings := ((b, v), .Defined d) :: s.bindings }
    | none => Res.err .uninitializedVariable) = _
  rw [hpol]

theorem exec_rv_single {s : SSAState} {b v p : Nat} (fuel : Nat)
    (h : alookup (b, v) s.bindings = none) {bd : BlockData}
    (hblk : alookup b s.blocks = some bd) (hsl : bd.sealed = true) (hpds : bd.preds = [p]) :
    exec (fuel + 1) s (.rv b v)
      = match exec fuel s (.rv p v) with
        | .rvOk w s1 =>
          .rvOk (cacheResolvedPair s1 b v w).1 (cacheResolvedPair s1 b v w).2
        | .err e => .err e
        | _ => .err .fuel := by
  rw [exec_rv_none_eq fuel h hblk, if_pos hsl, hpds]

theorem exec_rv_multi {s : SSAState} {b v p1 p2 : Nat} {rest : List Nat} (fuel : Nat)
    (h : alookup (b, v) s.bindings = none) {bd : BlockData}
    (hblk : alookup b s.blocks = some bd) (hsl : bd.sealed = true)
    (hpds : bd.preds = p1 :: p2 :: rest) :
    exec (fuel + 1) s (.rv b v)
      = match exec fuel
            { s with nextVal := s.nextVal + 1, params := (b, v, s.nextVal) :: s.params,
                     bindings := ((b, v), .InProgress s.nextVal) :: s.bindings }
            (.wp b v s.nextVal (p1 :: p2 :: rest)) with
        | .wpOk s2 =>
          .rvOk (cacheResolvedPair s2 b v (canon s2 s.nextVal)).1
            (cacheResolvedPair s2 b v (canon s2 s.nextVal)).2
        | .err e => .err e
        | _ => .err .fuel := by
  rw [exec_rv_none_eq fuel h hblk, if_pos hsl, hpds]

theorem exec_rv_unsealed {s : SSAState} {b v : Nat} (fuel : Nat)
    (h : alookup (b, v) s.bindings = none) {bd : BlockData}
    (hblk : alookup b s.blocks = some bd) (hsl : bd.sealed = false) :
    exec (fuel + 1) s (.rv b v)
      = .rvOk s.nextVal
          { s with nextVal := s.nextVal + 1, params := (b, v, s.nextVal) :: s.params,
                   bindings := ((b, v), .InProgress s.nextVal) :: s.bindings,
                   pending := (b, v, s.nextVal) :: s.pending } := by
  rw [exec_rv_none_eq fuel h hblk, if_neg (by rw [hsl]; exact Bool.false_ne_true)]

end SSA

namespace SSA

theorem exec_rv_noblock {s : SSAState} {b v : Nat} (fuel : Nat)
    (h : alookup (b, v) s.bindings = none) (hblk : alookup b s.blocks = none) :
    exec (fuel + 1) s (.rv b v) = .err .noBlock := by
  rw [exec_rv_eq, h]
  show (match alookup b s.blocks with
    | none => Res.err .noBlock
    | some bd => _) = _
  rw [hblk]

/-- Freshness facts preserved across a call: a value below the fresh counter
that is neither aliased nor a live parameter stays so. -/
def X1 (s s2 : SSAState) : Prop :=
  ∀ x, x < s.nextVal → alookup x s.repl = none → (∀ q ∈ s.phiOps, q.1 ≠ x) →
    alookup x s2.repl = none ∧ (∀ q ∈ s2.phiOps, q.1 ≠ x)

theorem exec_main : ∀ fuel : Nat,
    (∀ s b v w s2, WF s → exec fuel s (.rv b v) = .rvOk w s2 →
      Evo s s2 ∧ canon s2 w = w
      ∧ (∃ bind, alookup (b, v) s2.bindings = some bind ∧ canon s2 (bindVal bind) = w)
      ∧ X1 s s2)
    ∧ (∀ s v ps vs s2, WF s → exec fuel s (.rp v ps) = .rpOk vs s2 → Evo s s2 ∧ X1 s s2)
    ∧ (∀ s b v ph ps s2, WF s → ph < s.nextVal → alookup ph s.repl = none →
        (∀ q ∈ s.phiOps, q.1 ≠ ph) → (∀ e ∈ s.pending, e.2.2 ≠ ph) →
        exec fuel s (.wp b v ph ps) = .wpOk s2 →
        Evo s s2 ∧ (∀ x, x < s.nextVal → x ≠ ph → alookup x s.repl = none →
          (∀ q ∈ s.phiOps, q.1 ≠ x) →
          alookup x s2.repl = none ∧ (∀ q ∈ s2.phiOps, q.1 ≠ x))) := by
  intro fuel
  induction fuel with
  | zero =>
    refine ⟨?_, ?_, ?_⟩
    · intro s b v w s2 _ hex
      exact Res.noConfusion hex
    · intro s v ps vs s2 _ hex
      exact Res.noConfusion hex
    · intro s b v ph ps s2 _ _ _ _ _ hex
      exact Res.noConfusion hex
  | succ fuel ih =>
    obtain ⟨ihrv, ihrp, ihwp⟩ := ih
    refine ⟨?_, ?_, ?_⟩
    · -- the rv clause
      intro s b v w s2 hw hex
      rcases hb : alookup (b, v) s.bindings with _ | bind
      case some =>
        cases bind with
        | Defined x =>
          rw [exec_rv_defined fuel hb] at hex
          injection hex with h1 h2
          subst h1
          subst h2
          exact ⟨Evo.same hw, canon_idem hw x, ⟨.Defined x, hb, rfl⟩,
            fun x2 _ h2 h3 => ⟨h2, h3⟩⟩
        | Resolved x =>
          rw [exec_rv_resolved fuel hb] at hex
          injection hex with h1 h2
          subst h1
          subst h2
          exact ⟨Evo.same hw, canon_idem hw x, ⟨.Resolved x, hb, rfl⟩,
            fun x2 _ h2 h3 => ⟨h2, h3⟩⟩
        | InProgress x =>
          rw [exec_rv_inprogress fuel hb] at hex
          injection hex with h1 h2
          subst h1
          subst h2
          exact ⟨Evo.same hw, canon_idem hw x, ⟨.InProgress x, hb, rfl⟩,
            fun x2 _ h2 h3 => ⟨h2, h3⟩⟩
      case none =>
        rcases hblk : alookup b s.blocks with _ | bd
        · rw [exec_rv_noblock fuel hb hblk] at hex
          exact Res.noConfusion hex
        · rcases hsl : bd.sealed with _ | _
          · -- unsealed: mint a pending placeholder
            rw [exec_rv_unsealed fuel hb hblk hsl] at hex
            injection hex with h1 h2
            subst h1
            subst h2
            have hns : ¬ sealedLE1 s b := by
              rintro ⟨bd2, hbd2, hs2, _⟩
              rw [hblk] at hbd2
              cases hbd2
              rw [hsl] at hs2
              cases hs2
            refine ⟨Evo_mintPending hw hb hns, ?_, ?_, fun x2 _ h2 h3 => ⟨h2, h3⟩⟩
            · exact canon_eq_self (nonkey_of_ge hw (Nat.le_refl _))
            · refine ⟨.InProgress s.nextVal, ?_, ?_⟩
              · rw [alookup_cons, if_pos rfl]
              · exact canon_eq_self (nonkey_of_ge hw (Nat.le_refl _))
          · -- sealed
            rcases hpds : bd.preds with _ | ⟨p, _ | ⟨p2, rest⟩⟩
            · -- zero predecessors
              rcases hpol : s.policy with _ | d
              · rw [exec_rv_uninit fuel hb hblk hsl hpds hpol] at hex
                exact Res.noConfusion hex
              · rw [exec_rv_policy fuel hb hblk hsl hpds hpol] at hex
                injection hex with h1 h2
                subst h1
                subst h2
                have hz : zeroPredSealed s b := ⟨bd, hblk, hsl, hpds⟩
                refine ⟨Evo_writeDefined hw hb hz, canon_idem hw d, ?_,
                  fun x2 _ h2 h3 => ⟨h2, h3⟩⟩
                refine ⟨.Defined d, ?_, rfl⟩
                rw [alookup_cons, if_pos rfl]
            · -- exactly one predecessor p
              rw [exec_rv_single fuel hb hblk hsl hpds] at hex
              have hpred : sealedLE1pred s b p := ⟨bd, hblk, hsl, hpds⟩
              rcases hrec : exec fuel s (.rv p v) with ⟨w1, s1⟩ | ⟨s1⟩ | ⟨vs1, s1⟩ | ⟨er⟩
              · rw [hrec] at hex
                have hex2 : Res.rvOk (cacheResolvedPair s1 b v w1).1
                    (cacheResolvedPair s1 b v w1).2 = Res.rvOk w s2 := hex
                rcases ihrv s p v w1 s1 hw hrec with ⟨ev1, hcf1, hO1, hX1s⟩
                rcases hcur : alookup (b, v) s1.bindings with _ | bind1
                · have hcp : cacheResolvedPair s1 b v w1
                      = (w1, { s1 with bindings := ((b, v), .Resolved w1) :: s1.bindings }) := by
                    unfold cacheResolvedPair
                    rw [hcur]
                  rw [hcp] at hex2
                  injection hex2 with h1 h2
                  subst h1
                  subst h2
                  have hSPC : ∀ p', sealedLE1pred s b p' → p' ≠ b →
                      ∃ bind, alookup (p', v) s1.bindings = some bind
                        ∧ canon s1 (bindVal bind) = w1 := by
                    intro p' hpred' _
                    rcases hpred' with ⟨bd2, hbd2, _, hpds2⟩
                    rw [hblk] at hbd2
                    cases hbd2
                    rw [hpds] at hpds2
                    injection hpds2 with hp' _
                    rw [← hp']
                    exact hO1
                  refine ⟨Evo_writeResolved ev1 hb (Or.inl hcur) hcf1 hSPC, hcf1, ?_,
                    fun x2 hx2 h2 h3 => hX1s x2 hx2 h2 h3⟩
                  refine ⟨.Resolved w1, ?_, hcf1⟩
                  rw [alookup_cons, if_pos rfl]
                · cases bind1 with
                  | Defined x1 =>
                    rcases ev1.B b v with hB | hB | hB | hB
                    · rw [hb] at hB
                      rw [hcur] at hB
                      cases hB
                    · rcases hB with ⟨x2, hB⟩
                      rw [hcur] at hB
                      injection hB with hB'
                      exact Binding.noConfusion hB'
                    · exact absurd hB.choose_spec.2 (sealedLE1pred_not_zero hpred)
                    · exact absurd (sealedLE1pred_LE1 hpred) hB.choose_spec.2
                  | InProgress ph1 =>
                    rcases ev1.B b v with hB | hB | hB | hB
                    · rw [hb] at hB
                      rw [hcur] at hB
                      cases hB
                    · rcases hB with ⟨x2, hB⟩
                      rw [hcur] at hB
                      injection hB with hB'
                      exact Binding.noConfusion hB'
                    · rcases hB with ⟨x2, hB, hz⟩
                      exact absurd hz (sealedLE1pred_not_zero hpred)
                    · exact absurd (sealedLE1pred_LE1 hpred) hB.choose_spec.2
                  | Resolved x1 =>
                    have hcp : cacheResolvedPair s1 b v w1 = (canon s1 x1, s1) := by
                      unfold cacheResolvedPair
                      rw [hcur]
                    rw [hcp] at hex2
                    injection hex2 with h1 h2
                    subst h1
                    subst h2
                    exact ⟨ev1, canon_idem ev1.wf x1, ⟨.Resolved x1, hcur, rfl⟩, hX1s⟩
              · rw [hrec] at hex
                exact Res.noConfusion hex
              · rw [hrec] at hex
                exact Res.noConfusion hex
              · rw [hrec] at hex
                exact Res.noConfusion hex
            · -- two or more predecessors: mint and wire
              rw [exec_rv_multi fuel hb hblk hsl hpds] at hex
              have hns : ¬ sealedLE1 s b := by
                rintro ⟨bd2, hbd2, _, hlen⟩
                rw [hblk] at hbd2
                cases hbd2
                rw [hpds] at hlen
                simp [List.length_cons] at hlen
              have evm : Evo s
                  { s with nextVal := s.nextVal + 1, params := (b, v, s.nextVal) :: s.params,
                           bindings := ((b, v), .InProgress s.nextVal) :: s.bindings } :=
                Evo_mint hw hb hns
              rcases hwp : exec fuel
                  { s with nextVal := s.nextVal + 1, params := (b, v, s.nextVal) :: s.params,
                           bindings := ((b, v), .InProgress s.nextVal) :: s.bindings }
                  (.wp b v s.nextVal (p :: p2 :: rest)) with ⟨w1, s2'⟩ | ⟨s2'⟩ | ⟨vs1, s2'⟩ | ⟨er⟩
              · rw [hwp] at hex
                exact Res.noConfusion hex
              · rw [hwp] at hex
                have hex2 : Res.rvOk (cacheResolvedPair s2' b v (canon s2' s.nextVal)).1
                    (cacheResolvedPair s2' b v (canon s2' s.nextVal)).2 = Res.rvOk w s2 := hex
                rcases ihwp _ b v s.nextVal (p :: p2 :: rest) s2' evm.wf (Nat.lt_succ_self _)
                    (nonkey_of_ge hw (Nat.le_refl _))
                    (fun q hqm => Nat.ne_of_lt (hw.w4 q hqm))
                    (fun e he => Nat.ne_of_lt (hw.w5 e he)) hwp with ⟨ev2, hXw⟩
                have ev12 : Evo s s2' := Evo.comp evm ev2
                have hip : alookup (b, v) s2'.bindings = some (.InProgress s.nextVal) := by
                  refine ev2.I b v s.nextVal ?_
                  rw [alookup_cons, if_pos rfl]
                have hcp : cacheResolvedPair s2' b v (canon s2' s.nextVal)
                    = (canon s2' s.nextVal,
                       { s2' with bindings :=
                          ((b, v), .Resolved (canon s2' s.nextVal)) :: s2'.bindings }) := by
                  unfold cacheResolvedPair
                  rw [hip]
                rw [hcp] at hex2
                injection hex2 with h1 h2
                subst h1
                subst h2
                have hSPC : ∀ p', sealedLE1pred s b p' → p' ≠ b →
                    ∃ bind, alookup (p', v) s2'.bindings = some bind
                      ∧ canon s2' (bindVal bind) = canon s2' s.nextVal := by
                  intro p' hpred' _
                  rcases hpred' with ⟨bd2, hbd2, _, hpds2⟩
                  rw [hblk] at hbd2
                  cases hbd2
                  rw [hpds] at hpds2
                  injection hpds2 with _ htl
                  exact List.noConfusion htl
                refine ⟨Evo_writeResolved ev12 hb (Or.inr ⟨s.nextVal, hip, rfl⟩)
                    (canon_idem ev2.wf s.nextVal) hSPC, canon_idem ev2.wf s.nextVal, ?_, ?_⟩
                · refine ⟨.Resolved (canon s2' s.nextVal), ?_, canon_idem ev2.wf s.nextVal⟩
                  rw [alookup_cons, if_pos rfl]
                · intro x2 hx2 h2 h3
                  exact hXw x2 (Nat.lt_succ_of_lt hx2) (Nat.ne_of_lt hx2) h2 h3
              · rw [hwp] at hex
                exact Res.noConfusion hex
              · rw [hwp] at hex
                exact Res.noConfusion hex
    · -- the rp clause
      intro s v ps vs s2 hw hex
      cases ps with
      | nil =>
        rw [exec_rp_nil_eq] at hex
        injection hex with h1 h2
        subst h2
        exact ⟨Evo.same hw, fun x2 _ h2 h3 => ⟨h2, h3⟩⟩
      | cons p ps' =>
        rw [exec_rp_cons_eq] at hex
        rcases hrec : exec fuel s (.rv p v) with ⟨w1, s1⟩ | ⟨s1⟩ | ⟨vs1, s1⟩ | ⟨er⟩
        · rw [hrec] at hex
          have hex2 : (match exec fuel s1 (.rp v ps') with
            | .rpOk vs s2 => Res.rpOk (w1 :: vs) s2
            | .err e => Res.err e
            | _ => Res.err .fuel) = Res.rpOk vs s2 := hex
          rcases ihrv s p v w1 s1 hw hrec with ⟨ev1, _, _, hX1a⟩
          rcases hrec2 : exec fuel s1 (.rp v ps') with ⟨w2, s2''⟩ | ⟨s2''⟩ | ⟨vs2, s2''⟩ | ⟨er⟩
          · rw [hrec2] at hex2
            exact Res.noConfusion hex2
          · rw [hrec2] at hex2
            exact Res.noConfusion hex2
          · rw [hrec2] at hex2
            have hex3 : Res.rpOk (w1 :: vs2) s2'' = Res.rpOk vs s2 := hex2
            injection hex3 with h1 h2
            subst h1
            subst h2
            rcases ihrp s1 v ps' vs2 s2'' ev1.wf hrec2 with ⟨ev2, hX1b⟩
            refine ⟨Evo.comp ev1 ev2, ?_⟩
            intro x2 hx2 h2 h3
            rcases hX1a x2 hx2 h2 h3 with ⟨ha1, ha2⟩
            exact hX1b x2 (Nat.lt_of_lt_of_le hx2 ev1.nv) ha1 ha2
          · rw [hrec2] at hex2
            exact Res.noConfusion hex2
        · rw [hrec] at hex
          exact Res.noConfusion hex
        · rw [hrec] at hex
          exact Res.noConfusion hex
        · rw [hrec] at hex
          exact Res.noConfusion hex
    · -- the wp clause
      intro s b v ph ps s2 hw hlt hnk hq hpnd hex
      rw [exec_wp_eq] at hex
      rcases hrp : exec fuel s (.rp v ps) with ⟨w1, s1⟩ | ⟨s1⟩ | ⟨vals, s1⟩ | ⟨er⟩
      · rw [hrp] at hex
        exact Res.noConfusion hex
      · rw [hrp] at hex
        exact Res.noConfusion hex
      · rw [hrp] at hex
        have hex2 : Res.wpOk (removeTrivialCascade fuel
            { s1 with phiOps := (ph, vals) :: s1.phiOps } ph) = Res.wpOk s2 := hex
        injection hex2 with h2
        subst h2
        rcases ihrp s v ps vals s1 hw hrp with ⟨ev1, hX1a⟩
        have hlt1 : ph < s1.nextVal := Nat.lt_of_lt_of_le hlt ev1.nv
        rcases hX1a ph hlt hnk hq with ⟨hnk1, hq1⟩
        have hpend1 : ∀ e ∈ s1.pending, e.2.2 ≠ ph := by
          intro e he
          rcases ev1.pend e he with h' | h'
          · exact hpnd e h'
          · intro hcontra
            rw [hcontra] at h'
            exact absurd h' (Nat.not_le.2 hlt)
        have evCons : Evo s1 { s1 with phiOps := (ph, vals) :: s1.phiOps } :=
          Evo_phiOpsCons ev1.wf vals hlt1 hnk1 hpend1
        have evCasc : Evo { s1 with phiOps := (ph, vals) :: s1.phiOps }
            (casc fuel { s1 with phiOps := (ph, vals) :: s1.phiOps } (.one ph)) :=
          Evo_casc evCons.wf fuel (.one ph)
        refine ⟨Evo.comp (Evo.comp ev1 evCons) evCasc, ?_⟩
        intro x hx hxph h1 h2
        rcases hX1a x hx h1 h2 with ⟨ha1, ha2⟩
        have ha2' : ∀ q ∈ ({ s1 with phiOps := (ph, vals) :: s1.phiOps } : SSAState).phiOps,
            q.1 ≠ x := by
          intro q hqm
          rcases List.mem_cons.1 hqm with rfl | hqm
          · exact fun hc => hxph hc.symm
          · exact ha2 q hqm
        rcases casc_main fuel { s1 with phiOps := (ph, vals) :: s1.phiOps } (.one ph) evCons.wf
          with ⟨_, _, hXc, _, hQc⟩
        exact ⟨hXc x ha1 ha2', fun q hqm => ha2' q (hQc q hqm)⟩
      · rw [hrp] at hex
        exact Res.noConfusion hex

end SSA

namespace SSA

theorem alookup_updateBlocks_ne {l : List (Nat × BlockData)} {b b2 : Nat} {bd : BlockData}
    (h : b2 ≠ b) : alookup b2 (updateBlocks l b bd) = alookup b2 l := by
  induction l with
  | nil => rfl
  | cons e t ih =>
    show alookup b2 ((if e.1 = b then (b, bd) else e) :: updateBlocks t b bd) = _
    by_cases he : e.1 = b
    · rw [if_pos he, alookup_cons, if_neg (fun hc => h hc.symm), alookup]
      rw [if_neg (fun hc => h (he ▸ hc).symm)]
      exact ih
    · rw [if_neg he]
      show alookup b2 (e :: updateBlocks t b bd) = alookup b2 (e :: t)
      rw [alookup, alookup]
      by_cases hc : e.1 = b2
      · rw [if_pos hc, if_pos hc]
      · rw [if_neg hc, if_neg hc]
        exact ih

theorem alookup_updateBlocks_eq {l : List (Nat × BlockData)} {b : Nat} {bd0 bd : BlockData}
    (h : alookup b l = some bd0) : alookup b (updateBlocks l b bd) = some bd := by
  induction l with
  | nil => exact absurd h (by rw [alookup]; exact fun hc => Option.noConfusion hc)
  | cons e t ih =>
    show alookup b ((if e.1 = b then (b, bd) else e) :: updateBlocks t b bd) = _
    by_cases he : e.1 = b
    · rw [if_pos he, alookup_cons, if_pos rfl]
    · rw [if_neg he]
      rw [alookup] at h
      rw [if_neg he] at h
      show alookup b (e :: updateBlocks t b bd) = some bd
      rw [alookup, if_neg he]
      exact ih h

theorem updateBlocks_keys {l : List (Nat × BlockData)} {b : Nat} {bd : BlockData}
    {n : Nat} (hb : b < n) (hl : ∀ e ∈ l, e.1 < n) : ∀ e ∈ updateBlocks l b bd, e.1 < n := by
  intro e he
  rcases List.mem_map.1 he with ⟨e0, he0, rfl⟩
  by_cases hc : e0.1 = b
  · rw [if_pos hc]
    exact hb
  · rw [if_neg hc]
    exact hl e0 he0

theorem processPending_eq_cons (fuel : Nat) (s : SSAState) (b : Nat) (preds : List Nat)
    (e : Nat × Nat) (rest : List (Nat × Nat)) :
    processPending fuel s b preds (e :: rest)
      = match exec fuel s (.wp b e.1 e.2 preds) with
        | .wpOk s2 =>
          processPending fuel
            (match alookup (b, e.1) s2.bindings with
             | some (.InProgress _) =>
               { s2 with bindings := ((b, e.1), .Resolved (canon s2 e.2)) :: s2.bindings }
             | _ => s2) b preds rest
        | .err er => .error er
        | _ => .error .fuel := rfl

theorem processPending_main : ∀ (rest : List (Nat × Nat)) (fuel : Nat) (s : SSAState)
    (b : Nat) (preds : List Nat) (s2 : SSAState), WF s →
    (∀ e ∈ rest, e.2 < s.nextVal ∧ alookup e.2 s.repl = none
      ∧ (∀ q ∈ s.phiOps, q.1 ≠ e.2) ∧ (∀ p' ∈ s.pending, p'.2.2 ≠ e.2)) →
    (rest.map (fun e => e.2)).Nodup →
    processPending fuel s b preds rest = .ok s2 →
    s2.blocks = s.blocks ∧ WF s2 ∧ s.nextVal ≤ s2.nextVal
    ∧ (∀ b' v' x, alookup (b', v') s.bindings = some (.Resolved x) →
        alookup (b', v') s2.bindings = some (.Resolved x)) := by
  intro rest
  induction rest with
  | nil =>
    intro fuel s b preds s2 hw _ _ hpp
    have hpp2 : Except.ok s = Except.ok (ε := SsaErr) s2 := hpp
    injection hpp2 with h
    subst h
    exact ⟨rfl, hw, Nat.le_refl _, fun _ _ _ h => h⟩
  | cons e rest ih =>
    intro fuel s b preds s2 hw hrest hnd hpp
    rw [processPending_eq_cons] at hpp
    rcases hwp : exec fuel s (.wp b e.1 e.2 preds) with ⟨w1, s1⟩ | ⟨smid⟩ | ⟨vs1, s1⟩ | ⟨er⟩
    · rw [hwp] at hpp
      exact Except.noConfusion hpp
    · rw [hwp] at hpp
      rcases hrest e (List.mem_cons_self _ _) with ⟨helt, henk, heq, hepd⟩
      rcases (exec_main fuel).2.2 s b e.1 e.2 preds smid hw helt henk heq hepd hwp
        with ⟨ev, hXe⟩
      have hnd' : (rest.map (fun e => e.2)).Nodup := (List.nodup_cons.1 hnd).2
      have hene : ∀ e' ∈ rest, e'.2 ≠ e.2 := by
        intro e' he' hc
        have hmm : e'.2 ∈ rest.map (fun x => x.2) := List.mem_map_of_mem (fun x => x.2) he'
        rw [hc] at hmm
        exact (List.nodup_cons.1 hnd).1 hmm
      have hcont : ∀ s3 : SSAState, WF s3 → s3.blocks = smid.blocks
          → s3.nextVal = smid.nextVal → s3.repl = smid.repl → s3.phiOps = smid.phiOps
          → s3.pending = smid.pending
          → (∀ b' v' x, alookup (b', v') smid.bindings = some (.Resolved x) →
              alookup (b', v') s3.bindings = some (.Resolved x))
          → processPending fuel s3 b preds rest = .ok s2
          → s2.blocks = s.blocks ∧ WF s2 ∧ s.nextVal ≤ s2.nextVal
            ∧ (∀ b' v' x, alookup (b', v') s.bindings = some (.Resolved x) →
                alookup (b', v') s2.bindings = some (.Resolved x)) := by
        intro s3 hw3 hb3 hnv3 hr3 hp3 hpd3 hR3 hpp3
        have hconds : ∀ e' ∈ rest, e'.2 < s3.nextVal ∧ alookup e'.2 s3.repl = none
            ∧ (∀ q ∈ s3.phiOps, q.1 ≠ e'.2) ∧ (∀ p' ∈ s3.pending, p'.2.2 ≠ e'.2) := by
          intro e' he'
          rcases hrest e' (List.mem_cons_of_mem _ he') with ⟨h1, h2, h3, h4⟩
          rcases hXe e'.2 h1 (hene e' he') h2 h3 with ⟨hx1, hx2⟩
          refine ⟨?_, ?_, ?_, ?_⟩
          · rw [hnv3]
            exact Nat.lt_of_lt_of_le h1 ev.nv
          · rw [hr3]
            exact hx1
          · rw [hp3]
            exact hx2
          · rw [hpd3]
            intro p' hp'
            rcases ev.pend p' hp' with hp | hp
            · exact h4 p' hp
            · intro hc
              rw [hc] at hp
              exact absurd h1 (Nat.not_lt.2 hp)
        rcases ih fuel s3 b preds s2 hw3 hconds hnd' hpp3 with ⟨hb2, hw2, hnv2, hR2⟩
        refine ⟨hb2.trans (hb3.trans ev.blocks), hw2, ?_, ?_⟩
        · have h1 : s.nextVal ≤ s3.nextVal := by
            rw [hnv3]
            exact ev.nv
          exact Nat.le_trans h1 hnv2
        · intro b' v' x hres
          exact hR2 b' v' x (hR3 b' v' x (ev.R b' v' x hres))
      have hpp2 : processPending fuel
          (match alookup (b, e.1) smid.bindings with
           | some (.InProgress _) =>
             { smid with bindings := ((b, e.1), .Resolved (canon smid e.2)) :: smid.bindings }
           | _ => smid) b preds rest = .ok s2 := hpp
      rcases hcur : alookup (b, e.1) smid.bindings with _ | bind1
      · rw [hcur] at hpp2
        exact hcont smid ev.wf rfl rfl rfl rfl rfl (fun _ _ _ h => h) hpp2
      · cases bind1 with
        | Defined x1 =>
          rw [hcur] at hpp2
          exact hcont smid ev.wf rfl rfl rfl rfl rfl (fun _ _ _ h => h) hpp2
        | Resolved x1 =>
          rw [hcur] at hpp2
          exact hcont smid ev.wf rfl rfl rfl rfl rfl (fun _ _ _ h => h) hpp2
        | InProgress ph1 =>
          rw [hcur] at hpp2
          refine hcont { smid with bindings :=
              ((b, e.1), .Resolved (canon smid e.2)) :: smid.bindings }
            ⟨ev.wf.w1, ev.wf.w2, ev.wf.w4, ev.wf.w6, ev.wf.w5, ev.wf.w7a, ev.wf.w7b,
             ev.wf.w8, ev.wf.w0⟩ rfl rfl rfl rfl rfl ?_ hpp2
          intro b' v' x hres
          rw [alookup_cons]
          by_cases hk : (b, e.1) = (b', v')
          · rw [← hk] at hres
            rw [hcur] at hres
            injection hres with hres'
            exact Binding.noConfusion hres'
          · rw [if_neg hk]
            exact hres
    · rw [hwp] at hpp
      exact Except.noConfusion hpp
    · rw [hwp] at hpp
      exact Except.noConfusion hpp

end SSA

namespace SSA

theorem sealBlock_facts {fuel : Nat} {s : SSAState} {b : Nat} {s2 : SSAState} (hw : WF s)
    (h : sealBlock fuel s b = .ok s2) :
    WF s2
    ∧ (∀ b' v' x, alookup (b', v') s.bindings = some (.Resolved x) →
        alookup (b', v') s2.bindings = some (.Resolved x))
    ∧ (∀ b2, b2 ≠ b → alookup b2 s2.blocks = alookup b2 s.blocks)
    ∧ (∃ bd, alookup b s.blocks = some bd ∧ bd.sealed = false
        ∧ alookup b s2.blocks = some { bd with sealed := true }) := by
  unfold sealBlock at h
  rcases hblk : alookup b s.blocks with _ | bd
  · rw [hblk] at h
    exact Except.noConfusion h
  · rw [hblk] at h
    have h2 : (if bd.sealed then (Except.error .alreadySealed : Except SsaErr SSAState)
        else processPending fuel
          { s with blocks := updateBlocks s.blocks b { bd with sealed := true },
                   pending := s.pending.filter (fun t => decide (t.1 ≠ b)) }
          b bd.preds (pendingOf s b)) = .ok s2 := h
    rcases hsl : bd.sealed with _ | _
    · rw [hsl] at h2
      rw [if_neg Bool.false_ne_true] at h2
      have hbmem : (b, bd) ∈ s.blocks := alookup_mem hblk
      have hwf1 : WF { s with blocks := updateBlocks s.blocks b { bd with sealed := true },
                              pending := s.pending.filter (fun t => decide (t.1 ≠ b)) } := by
        refine ⟨hw.w1, hw.w2, hw.w4, hw.w6, ?_, ?_, ?_, ?_, ?_⟩
        · intro e he
          exact hw.w5 e (List.mem_filter.1 he).1
        · intro e he
          exact hw.w7a e (List.mem_filter.1 he).1
        · intro e he q hq
          exact hw.w7b e (List.mem_filter.1 he).1 q hq
        · refine List.Nodup.sublist ?_ hw.w8
          exact List.Sublist.map _ (List.filter_sublist _)
        · exact updateBlocks_keys (hw.w0 _ hbmem) hw.w0
      have hconds : ∀ e ∈ pendingOf s b,
          e.2 < s.nextVal
          ∧ alookup e.2 s.repl = none ∧ (∀ q ∈ s.phiOps, q.1 ≠ e.2)
          ∧ (∀ p' ∈ s.pending.filter (fun t => decide (t.1 ≠ b)), p'.2.2 ≠ e.2) := by
        intro e he
        rcases List.mem_map.1 he with ⟨t, htf, rfl⟩
        rcases List.mem_filter.1 htf with ⟨htp, htb⟩
        refine ⟨hw.w5 t htp, hw.w7a t htp, fun q hq => hw.w7b t htp q hq, ?_⟩
        intro p' hp' hc
        rcases List.mem_filter.1 hp' with ⟨hp'p, hp'b⟩
        have hpt : p' = t :=
          List.inj_on_of_nodup_map hw.w8 hp'p htp hc
        rw [hpt] at hp'b
        rw [of_decide_eq_true htb] at hp'b
        exact absurd rfl (of_decide_eq_true hp'b)
      have hndp : ((pendingOf s b).map (fun e => e.2)).Nodup := by
        unfold pendingOf
        rw [List.map_map]
        refine List.Nodup.sublist ?_ hw.w8
        exact List.Sublist.map _ (List.filter_sublist _)
      rcases processPending_main (pendingOf s b) fuel _ b bd.preds s2 hwf1 hconds hndp h2
        with ⟨hb2, hw2, _, hR2⟩
      refine ⟨hw2, hR2, ?_, bd, rfl, hsl, ?_⟩
      · intro b2 hb2b
        rw [hb2]
        exact alookup_updateBlocks_ne hb2b
      · rw [hb2]
        exact alookup_updateBlocks_eq hblk
    · rw [hsl] at h2
      rw [if_pos rfl] at h2
      exact Except.noConfusion h2

end SSA

namespace SSA

/-- The value component of a read result. -/
def valOf : Res → Option Nat
  | .rvOk w _ => some w
  | _ => none

/-- The state component of a read result, with a fallback. -/
def stateOf : Res → SSAState → SSAState
  | .rvOk _ s, _ => s
  | _, d => d

theorem applyOp_resolved_pres {op : Op} {s s2 : SSAState} (hw : WF s)
    (hnd : ∀ b v x, op ≠ Op.defineOp b v x) (h : applyOp op s = .ok s2) :
    ∀ b v x, alookup (b, v) s.bindings = some (.Resolved x) →
      alookup (b, v) s2.bindings = some (.Resolved x) := by
  intro b v x hres
  cases op with
  | defineOp b0 v0 x0 => exact absurd rfl (hnd b0 v0 x0)
  | readOp fuel b0 v0 =>
    have h2 : (match readVar fuel s b0 v0 with
      | .rvOk _ s3 => Except.ok s3
      | .err e => Except.error e
      | _ => Except.error .fuel) = Except.ok s2 := h
    rcases hr : readVar fuel s b0 v0 with ⟨w1, s3⟩ | ⟨s3⟩ | ⟨vs1, s3⟩ | ⟨er⟩
    · rw [hr] at h2
      have h3 : Except.ok s3 = Except.ok (ε := SsaErr) s2 := h2
      injection h3 with h4
      subst h4
      exact ((exec_main fuel).1 s b0 v0 w1 _ hw hr).1.R b v x hres
    · rw [hr] at h2
      exact Except.noConfusion h2
    · rw [hr] at h2
      exact Except.noConfusion h2
    · rw [hr] at h2
      exact Except.noConfusion h2
  | addPredOp t f =>
    replace h : addPredecessor s t f = Except.ok s2 := h
    unfold addPredecessor at h
    rcases hblk : alookup t s.blocks with _ | bd
    · rw [hblk] at h
      exact Except.noConfusion h
    · rw [hblk] at h
      have h2 : (if bd.sealed then (Except.error .sealedBlock : Except SsaErr SSAState)
          else Except.ok { s with
            blocks := updateBlocks s.blocks t { bd with preds := bd.preds ++ [f] } })
          = Except.ok s2 := h
      rcases hsl : bd.sealed with _ | _
      · rw [hsl, if_neg Bool.false_ne_true] at h2
        injection h2 with h3
        subst h3
        exact hres
      · rw [hsl, if_pos rfl] at h2
        exact Except.noConfusion h2
  | sealOp fuel b0 => exact (sealBlock_facts hw h).2.1 b v x hres
  | finalizeOp =>
    replace h : finalize s = Except.ok s2 := h
    unfold finalize at h
    rcases hall : s.blocks.all (fun e => e.2.sealed) with _ | _
    · rw [hall] at h
      have h2 : (if (false : Bool) then Except.ok s
          else (Except.error .unsealedBlockAtFinalize : Except SsaErr SSAState))
          = Except.ok s2 := h
      rw [if_neg Bool.false_ne_true] at h2
      exact Except.noConfusion h2
    · rw [hall] at h
      have h2 : (if (true : Bool) then Except.ok s
          else (Except.error .unsealedBlockAtFinalize : Except SsaErr SSAState))
          = Except.ok s2 := h
      rw [if_pos rfl] at h2
      injection h2 with h3
      subst h3
      exact hres
  | createBlockOp =>
    have h2 : Except.ok (ε := SsaErr) (createBlock s).2 = Except.ok s2 := h
    injection h2 with h3
    subst h3
    exact hres

theorem applyOp_sealed_blocks_pres {op : Op} {s s2 : SSAState} (hw : WF s)
    (h : applyOp op s = .ok s2) :
    ∀ b bd, alookup b s.blocks = some bd → bd.sealed = true →
      alookup b s2.blocks = some bd := by
  intro b bd hblk hsl
  cases op with
  | defineOp b0 v0 x0 =>
    have h2 : Except.ok (ε := SsaErr) (defineVar s b0 v0 x0) = Except.ok s2 := h
    injection h2 with h3
    subst h3
    exact hblk
  | readOp fuel b0 v0 =>
    have h2 : (match readVar fuel s b0 v0 with
      | .rvOk _ s3 => Except.ok s3
      | .err e => Except.error e
      | _ => Except.error .fuel) = Except.ok s2 := h
    rcases hr : readVar fuel s b0 v0 with ⟨w1, s3⟩ | ⟨s3⟩ | ⟨vs1, s3⟩ | ⟨er⟩
    · rw [hr] at h2
      have h3 : Except.ok s3 = Except.ok (ε := SsaErr) s2 := h2
      injection h3 with h4
      subst h4
      rw [((exec_main fuel).1 s b0 v0 w1 _ hw hr).1.blocks]
      exact hblk
    · rw [hr] at h2
      exact Except.noConfusion h2
    · rw [hr] at h2
      exact Except.noConfusion h2
    · rw [hr] at h2
      exact Except.noConfusion h2
  | addPredOp t f =>
    replace h : addPredecessor s t f = Except.ok s2 := h
    unfold addPredecessor at h
    rcases hblk2 : alookup t s.blocks with _ | bd2
    · rw [hblk2] at h
      exact Except.noConfusion h
    · rw [hblk2] at h
      have h2 : (if bd2.sealed then (Except.error .sealedBlock : Except SsaErr SSAState)
          else Except.ok { s with
            blocks := updateBlocks s.blocks t { bd2 with preds := bd2.preds ++ [f] } })
          = Except.ok s2 := h
      rcases hsl2 : bd2.sealed with _ | _
      · rw [hsl2, if_neg Bool.false_ne_true] at h2
        injection h2 with h3
        subst h3
        by_cases hbt : b = t
        · rw [hbt] at hblk
          rw [hblk] at hblk2
          injection hblk2 with h4
          rw [← h4] at hsl2
          rw [hsl] at hsl2
          exact Bool.noConfusion hsl2
        · show alookup b (updateBlocks s.blocks t _) = some bd
          rw [alookup_updateBlocks_ne hbt]
          exact hblk
      · rw [hsl2, if_pos rfl] at h2
        exact Except.noConfusion h2
  | sealOp fuel b0 =>
    rcases sealBlock_facts hw h with ⟨_, _, hne, ⟨bd0, hbd0, hsl0, _⟩⟩
    by_cases hbb : b = b0
    · rw [hbb] at hblk
      rw [hblk] at hbd0
      injection hbd0 with h4
      rw [← h4] at hsl0
      rw [hsl] at hsl0
      exact Bool.noConfusion hsl0
    · rw [hne b hbb]
      exact hblk
  | finalizeOp =>
    replace h : finalize s = Except.ok s2 := h
    unfold finalize at h
    rcases hall : s.blocks.all (fun e => e.2.sealed) with _ | _
    · rw [hall] at h
      have h2 : (if (false : Bool) then Except.ok s
          else (Except.error .unsealedBlockAtFinalize : Except SsaErr SSAState))
          = Except.ok s2 := h
      rw [if_neg Bool.false_ne_true] at h2
      exact Except.noConfusion h2
    · rw [hall] at h
      have h2 : (if (true : Bool) then Except.ok s
          else (Except.error .unsealedBlockAtFinalize : Except SsaErr SSAState))
          = Except.ok s2 := h
      rw [if_pos rfl] at h2
      injection h2 with h3
      subst h3
      exact hblk
  | createBlockOp =>
    have h2 : Except.ok (ε := SsaErr) (createBlock s).2 = Except.ok s2 := h
    injection h2 with h3
    subst h3
    show alookup b ((s.nextBlock, ⟨[], false⟩) :: s.blocks) = some bd
    rw [alookup_cons]
    rw [if_neg (Nat.ne_of_gt (hw.w0 _ (alookup_mem hblk)))]
    exact hblk

end SSA

namespace SSA

/-- Demo graph: block 0 sealed with no predecessors, block 1 sealed with the
single predecessor 0. -/
def s0A : SSAState := ⟨[(0, ⟨[], true⟩), (1, ⟨[0], true⟩)], [], [], [], [], [], 0, 2, none⟩

/-- x defined to 10 in block 0. -/
def c1sA : SSAState := defineVar s0A 0 0 10

/-- After read(1, x): the answer 10 is cached as Resolved for (1, x). -/
def c1sB : SSAState := stateOf (readVar 5 c1sA 1 0) c1sA

/-- x redefined to 20 in block 0 after the downstream read was cached. -/
def c1sC : SSAState := defineVar c1sB 0 0 20

/-- Claim C1, counterexample to the original statement: block 1 is sealed
with exactly the predecessor 0 and holds no Defined binding for x (only a
cached Resolved binding), yet read(1, x) returns the stale cached 10 while
read(0, x) returns 20 after the redefinition. -/
theorem single_pred_transparent_cex :
    alookup 1 c1sC.blocks = some ⟨[0], true⟩
    ∧ alookup (1, 0) c1sC.bindings = some (.Resolved 10)
    ∧ valOf (readVar 5 c1sC 1 0) = some 10
    ∧ valOf (readVar 5 c1sC 0 0) = some 20 := by
  refine ⟨by decide, by decide, by decide, by decide⟩

/-- Claim C1 (amended): on a sealed block b with exactly one predecessor p,
a read of a variable with no cached binding at all for (b, v) recursively
reads p, returns exactly that value (also propagating p's failure exactly),
and creates no block parameter in b. -/
theorem single_pred_transparent (fuel : Nat) (s : SSAState) (b p v : Nat) (hw : WF s)
    (bd : BlockData) (hblk : alookup b s.blocks = some bd) (hsl : bd.sealed = true)
    (hpds : bd.preds = [p]) (hb : alookup (b, v) s.bindings = none) :
    (∀ w s1, readVar fuel s p v = .rvOk w s1 →
      ∃ s2, readVar (fuel + 1) s b v = .rvOk w s2
        ∧ ∀ e ∈ s2.params, e.1 = b → e ∈ s.params)
    ∧ (∀ er, readVar fuel s p v = .err er → readVar (fuel + 1) s b v = .err er) := by
  have hpred : sealedLE1pred s b p := ⟨bd, hblk, hsl, hpds⟩
  constructor
  · intro w s1 hrec
    have hrec2 : exec fuel s (.rv p v) = .rvOk w s1 := hrec
    have houter : readVar (fuel + 1) s b v
        = .rvOk (cacheResolvedPair s1 b v w).1 (cacheResolvedPair s1 b v w).2 := by
      show exec (fuel + 1) s (.rv b v) = _
      rw [exec_rv_single fuel hb hblk hsl hpds, hrec2]
    rcases (exec_main fuel).1 s p v w s1 hw hrec with ⟨ev1, hcf1, hO1, _⟩
    rcases hcur : alookup (b, v) s1.bindings with _ | bind1
    · have hcp : cacheResolvedPair s1 b v w
          = (w, { s1 with bindings := ((b, v), .Resolved w) :: s1.bindings }) := by
        unfold cacheResolvedPair
        rw [hcur]
      rw [hcp] at houter
      refine ⟨_, houter, ?_⟩
      intro e he hbe
      rcases (exec_main (fuel + 1)).1 s b v _ _ hw houter with ⟨evO, _, _, _⟩
      rcases evO.P e he with hm | hm
      · exact hm
      · rw [hbe] at hm
        exact absurd (sealedLE1pred_LE1 hpred) hm
    · cases bind1 with
      | Defined x1 =>
        rcases ev1.B b v with hB | hB | hB | hB
        · rw [hb] at hB
          rw [hcur] at hB
          cases hB
        · rcases hB with ⟨x2, hB⟩
          rw [hcur] at hB
          injection hB with hB'
          exact Binding.noConfusion hB'
        · exact absurd hB.choose_spec.2 (sealedLE1pred_not_zero hpred)
        · exact absurd (sealedLE1pred_LE1 hpred) hB.choose_spec.2
      | InProgress ph1 =>
        rcases ev1.B b v with hB | hB | hB | hB
        · rw [hb] at hB
          rw [hcur] at hB
          cases hB
        · rcases hB with ⟨x2, hB⟩
          rw [hcur] at hB
          injection hB with hB'
          exact Binding.noConfusion hB'
        · rcases hB with ⟨x2, hB, hz⟩
          exact absurd hz (sealedLE1pred_not_zero hpred)
        · exact absurd (sealedLE1pred_LE1 hpred) hB.choose_spec.2
      | Resolved x1 =>
        have hval : canon s1 x1 = w := by
          rcases ev1.SPCn b p v x1 hpred hb hcur with ⟨bindp, hbp, hcp2⟩
          rcases hO1 with ⟨bindo, hbo, hco⟩
          rw [hbp] at hbo
          injection hbo with hbo'
          rw [← hcp2, hbo']
          exact hco
        have hcp : cacheResolvedPair s1 b v w = (canon s1 x1, s1) := by
          unfold cacheResolvedPair
          rw [hcur]
        rw [hcp, hval] at houter
        refine ⟨s1, houter, ?_⟩
        intro e he hbe
        rcases ev1.P e he with hm | hm
        · exact hm
        · rw [hbe] at hm
          exact absurd (sealedLE1pred_LE1 hpred) hm
  · intro er hrec
    have hrec2 : exec fuel s (.rv p v) = .err er := hrec
    show exec (fuel + 1) s (.rv b v) = _
    rw [exec_rv_single fuel hb hblk hsl hpds, hrec2]

/-- Witness for the amended claim C1 at the demo graph: read(1, x) returns
the value read(0, x) returns, with no parameter created in block 1. -/
theorem single_pred_transparent_witness :
    ∃ s2, readVar 2 c1sA 1 0 = .rvOk 10 s2 ∧ ∀ e ∈ s2.params, e.1 = 1 → e ∈ c1sA.params :=
  (single_pred_transparent 1 c1sA 1 0 0
    ⟨by decide, by decide, by decide, by decide, by decide, by decide, by decide,
     by decide, by decide⟩
    ⟨[0], true⟩ (by decide) (by decide) (by decide) (by decide)).1 10 c1sA (by decide)

end SSA

namespace SSA

/-- Scenario D graph: block 0 sealed entry, block 1 sealed with predecessors
0 and itself (a loop back-edge). -/
def sD0 : SSAState := ⟨[(0, ⟨[], true⟩), (1, ⟨[0, 1], true⟩)], [], [], [], [], [], 0, 2, none⟩

/-- x defined to 100 in the loop preheader block 0 and never inside the loop. -/
def sD1 : SSAState := defineVar sD0 0 0 100

/-- Claim C2: a wired block-parameter placeholder whose de-duplicated
incoming set excluding self-references has exactly one distinct member w is
removed (from the live parameters and the wired table) and every use of the
placeholder value is rewritten to the surviving value (every value that
resolved to the placeholder now resolves to w's representative); and in
Scenario D the loop-header read of a variable never written inside the loop
resolves to the outside value 100 with zero surviving parameters. -/
theorem trivial_phi_elimination (n : Nat) (s : SSAState) (ph w : Nat) (ops : List Nat)
    (hw : WF s) (hops : alookup ph s.phiOps = some ops)
    (huq : uniqOf s (canon s ph) ops = [w]) :
    ((∀ e ∈ (removeTrivialCascade (n + 1) s ph).params, e.2.2 ≠ ph)
    ∧ (∀ q ∈ (removeTrivialCascade (n + 1) s ph).phiOps, q.1 ≠ ph)
    ∧ canon (removeTrivialCascade (n + 1) s ph) ph
        = canon (removeTrivialCascade (n + 1) s ph) w
    ∧ (∀ u, canon s u = canon s ph →
        canon (removeTrivialCascade (n + 1) s ph) u
          = canon (removeTrivialCascade (n + 1) s ph) w))
    ∧ valOf (readVar 10 sD1 1 0) = some 100
    ∧ (stateOf (readVar 10 sD1 1 0) sD1).params = [] := by
  refine ⟨?_, by decide, by decide⟩
  unfold removeTrivialCascade
  rw [casc_one_step n s ph ops w hops huq]
  have hphmem : (ph, ops) ∈ s.phiOps := alookup_mem hops
  have hkeyph : alookup ph s.repl = none := hw.w6 _ hphmem
  have hc : canon s ph = ph := canon_eq_self hkeyph
  have hwmem : w ∈ uniqOf s (canon s ph) ops := by
    rw [huq]
    exact List.mem_cons_self _ _
  have hwf0 : w ∈ (ops.map (canon s)).filter (fun x => decide (x ≠ canon s ph)) :=
    List.mem_dedup.1 hwmem
  rcases List.mem_filter.1 hwf0 with ⟨hwmap, hwne⟩
  have hwneq : w ≠ ph := by
    rw [hc] at hwne
    exact of_decide_eq_true hwne
  have hkeyw : alookup w s.repl = none := by
    rcases List.mem_map.1 hwmap with ⟨u0, _, rfl⟩
    exact canon_nonkey hw u0
  have hqdrop : ∀ q ∈ (dropPhi s ph).phiOps, q.1 ≠ ph := by
    intro q hq
    exact of_decide_eq_true (List.mem_filter.1 hq).2
  have hpnd : ∀ e ∈ (dropPhi s ph).pending, e.2.2 ≠ ph := by
    intro e he
    exact fun h => (hw.w7b e he _ hphmem) h.symm
  have hwft : WF (aliasAdd (dropPhi s ph) ph w) :=
    aliasAdd_WF (dropPhi_WF hw ph) hkeyph hkeyw hwneq (hw.w4 _ hphmem) hqdrop hpnd
  rcases casc_main n (aliasAdd (dropPhi s ph) ph w) (.many (usersOf s ph (canon s ph))) hwft
    with ⟨_, hMF, _, hPF, hQF⟩
  have hkeyph2 : alookup ph (dropPhi s ph).repl = none := hkeyph
  have hta : canon (aliasAdd (dropPhi s ph) ph w) ph = w := by
    rw [aliasAdd_canon hkeyph2 ph]
    rw [show canon (dropPhi s ph) ph = ph from hc, if_pos rfl]
  refine ⟨?_, ?_, ?_, ?_⟩
  · intro e he
    exact of_decide_eq_true (List.mem_filter.1 (hPF e he)).2
  · intro q hq
    exact of_decide_eq_true (List.mem_filter.1 (hQF q hq)).2
  · calc canon _ ph
        = canon _ (canon (aliasAdd (dropPhi s ph) ph w) ph) := (hMF ph).symm
      _ = canon _ w := by rw [hta]
  · intro u hu
    have htu : canon (aliasAdd (dropPhi s ph) ph w) u = w := by
      rw [aliasAdd_canon hkeyph2 u]
      rw [show canon (dropPhi s ph) u = canon s u from rfl, hu, hc, if_pos rfl]
    calc canon _ u
        = canon _ (canon (aliasAdd (dropPhi s ph) ph w) u) := (hMF u).symm
      _ = canon _ w := by rw [htu]

/-- Witness for claim C2: a concrete wired placeholder with incoming values
100 and itself collapses to 100. -/
def c2demo : SSAState :=
  ⟨[(0, ⟨[], true⟩), (1, ⟨[0, 1], true⟩)], [((1, 0), .InProgress 0)], [(1, 0, 0)], [],
   [(0, [100, 0])], [], 1, 2, none⟩

/-- Witness for claim C2 at the concrete state c2demo. -/
theorem trivial_phi_elimination_witness :
    ((∀ e ∈ (removeTrivialCascade 3 c2demo 0).params, e.2.2 ≠ 0)
    ∧ (∀ q ∈ (removeTrivialCascade 3 c2demo 0).phiOps, q.1 ≠ 0)
    ∧ canon (removeTrivialCascade 3 c2demo 0) 0 = canon (removeTrivialCascade 3 c2demo 0) 100
    ∧ (∀ u, canon c2demo u = canon c2demo 0 →
        canon (removeTrivialCascade 3 c2demo 0) u = canon (removeTrivialCascade 3 c2demo 0) 100))
    ∧ valOf (readVar 10 sD1 1 0) = some 100
    ∧ (stateOf (readVar 10 sD1 1 0) sD1).params = [] :=
  trivial_phi_elimination 2 c2demo 0 100 [100, 0]
    ⟨by decide, by decide, by decide, by decide, by decide, by decide, by decide,
     by decide, by decide⟩
    (by decide) (by decide)

end SSA

namespace SSA

instance {ε α : Type} [DecidableEq ε] [DecidableEq α] : DecidableEq (Except ε α) :=
  fun a b =>
    match a, b with
    | .ok x, .ok y =>
      if h : x = y then isTrue (by rw [h]) else isFalse (fun hc => h (by injection hc))
    | .error x, .error y =>
      if h : x = y then isTrue (by rw [h]) else isFalse (fun hc => h (by injection hc))
    | .ok _, .error _ => isFalse (fun hc => Except.noConfusion hc)
    | .error _, .ok _ => isFalse (fun hc => Except.noConfusion hc)

/-- Unsealed single block, no predecessors yet. -/
def s7 : SSAState := ⟨[(0, ⟨[], false⟩)], [], [], [], [], [], 0, 1, none⟩

/-- Claim C3, counterexample to the original statement: after read(1, x)
cached a Resolved binding for (1, x), a subsequent define(1, x, 99) - one of
the operations the claim quantifies over - changes that binding to
Defined 99. -/
theorem resolved_immutable_cex :
    alookup (1, 0) c1sB.bindings = some (.Resolved 10)
    ∧ applyOp (Op.defineOp 1 0 99) c1sB = .ok (defineVar c1sB 1 0 99)
    ∧ alookup (1, 0) (defineVar c1sB 1 0 99).bindings = some (.Defined 99)
    ∧ (Binding.Defined 99 : Binding) ≠ .Resolved 10 := by
  refine ⟨by decide, by decide, by decide, by decide⟩

/-- Claim C3 (amended): once a (block, variable) binding is Resolved, no
subsequent read, add_predecessor, seal, or finalize operation (i.e. every
operation except a new direct define of that variable) ever changes that
binding. -/
theorem resolved_immutable (op : Op) (s s2 : SSAState) (hw : WF s)
    (hnd : ∀ b v x, op ≠ Op.defineOp b v x) (h : applyOp op s = .ok s2)
    (b v x : Nat) (hres : alookup (b, v) s.bindings = some (.Resolved x)) :
    alookup (b, v) s2.bindings = some (.Resolved x) :=
  applyOp_resolved_pres hw hnd h b v x hres

/-- Witness for the amended claim C3: sealing block 1 of a demo state leaves
the cached Resolved binding untouched. -/
theorem resolved_immutable_witness :
    alookup (1, 0) (stateOf (readVar 3 c1sB 1 0) c1sB).bindings = some (.Resolved 10) :=
  resolved_immutable (Op.readOp 3 1 0) c1sB (stateOf (readVar 3 c1sB 1 0) c1sB)
    ⟨by decide, by decide, by decide, by decide, by decide, by decide, by decide,
     by decide, by decide⟩
    (fun _ _ _ h => Op.noConfusion h) (by decide) 1 0 10 (by decide)

/-- Claim C4: define(b, v, x) followed by define(b, v, y) makes read(b, v)
return y and never x: the later direct definition shadows the earlier one. -/
theorem define_shadows (fuel : Nat) (s : SSAState) (b v x y : Nat)
    (hy : canon s y = y) (hxy : x ≠ y) :
    readVar (fuel + 1) (defineVar (defineVar s b v x) b v y) b v
      = .rvOk y (defineVar (defineVar s b v x) b v y) ∧ y ≠ x := by
  constructor
  · have hl : alookup (b, v) (defineVar (defineVar s b v x) b v y).bindings
        = some (.Defined y) := by
      show alookup (b, v) (((b, v), Binding.Defined y) :: (defineVar s b v x).bindings)
        = some (.Defined y)
      rw [alookup_cons, if_pos rfl]
    show exec (fuel + 1) _ (.rv b v) = _
    rw [exec_rv_defined fuel hl]
    rw [show canon (defineVar (defineVar s b v x) b v y) y = y from hy]
  · exact fun h => hxy h.symm

/-- Empty demo state. -/
def sEmpty : SSAState := ⟨[], [], [], [], [], [], 0, 0, none⟩

/-- Witness for claim C4 at concrete values 5 then 7. -/
theorem define_shadows_witness :
    readVar 1 (defineVar (defineVar sEmpty 0 0 5) 0 0 7) 0 0
      = .rvOk 7 (defineVar (defineVar sEmpty 0 0 5) 0 0 7) ∧ 7 ≠ 5 :=
  define_shadows 0 sEmpty 0 0 5 7 (by decide) (by decide)

/-- Claim C5: reading twice with no intervening operation returns the
identical value (and the identical state): the second read hits the cached
binding, so a value is computed at most once per (block, variable) pair. -/
theorem read_idempotent (fuel g : Nat) (s : SSAState) (b v w : Nat) (s2 : SSAState)
    (hw : WF s) (h : readVar fuel s b v = .rvOk w s2) :
    readVar (g + 1) s2 b v = .rvOk w s2 := by
  rcases (exec_main fuel).1 s b v w s2 hw h with ⟨_, _, ⟨bind, hbind, hcanon⟩, _⟩
  cases bind with
  | Defined x =>
    simp only [bindVal] at hcanon
    show exec (g + 1) s2 (.rv b v) = _
    rw [exec_rv_defined g hbind, hcanon]
  | Resolved x =>
    simp only [bindVal] at hcanon
    show exec (g + 1) s2 (.rv b v) = _
    rw [exec_rv_resolved g hbind, hcanon]
  | InProgress x =>
    simp only [bindVal] at hcanon
    show exec (g + 1) s2 (.rv b v) = _
    rw [exec_rv_inprogress g hbind, hcanon]

/-- Witness for claim C5: re-reading after a first read returns the same
value and state. -/
theorem read_idempotent_witness : readVar 1 c1sB 1 0 = .rvOk 10 c1sB :=
  read_idempotent 5 0 c1sA 1 0 10 c1sB
    ⟨by decide, by decide, by decide, by decide, by decide, by decide, by decide,
     by decide, by decide⟩
    (by decide)

/-- Claim C6: add_predecessor appends to the predecessor list of an unsealed
target, fails with SealedBlock on a sealed target, and consequently (third
conjunct, quantified over every operation) the data of a sealed block -
its predecessor list included - never changes. -/
theorem addPredecessor_spec (s : SSAState) (t f : Nat) (hw : WF s) :
    (∀ bd, alookup t s.blocks = some bd → bd.sealed = true →
        addPredecessor s t f = .error .sealedBlock)
    ∧ (∀ bd, alookup t s.blocks = some bd → bd.sealed = false →
        addPredecessor s t f
          = .ok { s with blocks := updateBlocks s.blocks t { bd with preds := bd.preds ++ [f] } })
    ∧ (∀ op s2, applyOp op s = .ok s2 →
        ∀ b bd, alookup b s.blocks = some bd → bd.sealed = true →
          alookup b s2.blocks = some bd) := by
  refine ⟨?_, ?_, fun op s2 h => applyOp_sealed_blocks_pres hw h⟩
  · intro bd hblk hsl
    unfold addPredecessor
    rw [hblk]
    show (if bd.sealed then (Except.error .sealedBlock : Except SsaErr SSAState)
      else Except.ok _) = _
    rw [hsl, if_pos rfl]
  · intro bd hblk hsl
    unfold addPredecessor
    rw [hblk]
    show (if bd.sealed then (Except.error .sealedBlock : Except SsaErr SSAState)
      else Except.ok _) = _
    rw [hsl, if_neg Bool.false_ne_true]

/-- Witness for claim C6: adding a predecessor to the sealed block 0 of the
demo graph fails with SealedBlock, and to an unsealed block appends. -/
theorem addPredecessor_spec_witness :
    addPredecessor s0A 0 1 = .error .sealedBlock
    ∧ addPredecessor s7 0 1
        = .ok { s7 with blocks := updateBlocks s7.blocks 0 ⟨[1], false⟩ } :=
  ⟨(addPredecessor_spec s0A 0 1
      ⟨by decide, by decide, by decide, by decide, by decide, by decide, by decide,
       by decide, by decide⟩).1 ⟨[], true⟩ (by decide) (by decide),
   (addPredecessor_spec s7 0 1
      ⟨by decide, by decide, by decide, by decide, by decide, by decide, by decide,
       by decide, by decide⟩).2.1 ⟨[], false⟩ (by decide) (by decide)⟩

end SSA

namespace SSA

/-- State after reading x in the still-unsealed block 0: a pending
placeholder is cached. -/
def s7a : SSAState := stateOf (readVar 10 s7 0 0) s7

/-- State after then sealing block 0: the placeholder is wired over the
empty predecessor list and kept as the concrete undefined value. -/
def s7b : SSAState :=
  match sealBlock 10 s7a 0 with
  | .ok s => s
  | .error _ => s7a

/-- Claim C7, counterexample to the original statement: block 0 of s7b is
sealed with zero predecessors, holds no Defined binding for x (the binding
is the Resolved undefined placeholder produced by the spec's zero-incoming
rule), the default policy is off, and yet read succeeds with the
placeholder value instead of signalling UninitializedVariable. -/
theorem read_uninitialized_cex :
    alookup 0 s7b.blocks = some ⟨[], true⟩
    ∧ s7b.policy = none
    ∧ alookup (0, 0) s7b.bindings = some (.Resolved 0)
    ∧ readVar 5 s7b 0 0 = .rvOk 0 s7b := by
  refine ⟨by decide, by decide, by decide, by decide⟩

/-- Claim C7 (amended): on a sealed block with zero predecessors, a read of
a variable with no binding at all for (block, variable) and no default
policy configured signals UninitializedVariable. -/
theorem read_uninitialized (fuel : Nat) (s : SSAState) (b v : Nat) (bd : BlockData)
    (hb : alookup (b, v) s.bindings = none) (hblk : alookup b s.blocks = some bd)
    (hsl : bd.sealed = true) (hpds : bd.preds = []) (hpol : s.policy = none) :
    readVar (fuel + 1) s b v = .err .uninitializedVariable :=
  exec_rv_uninit fuel hb hblk hsl hpds hpol

/-- Sealed entry block with no predecessors and no bindings. -/
def s7c : SSAState := ⟨[(0, ⟨[], true⟩)], [], [], [], [], [], 0, 1, none⟩

/-- Witness for the amended claim C7. -/
theorem read_uninitialized_witness :
    readVar 4 s7c 0 0 = .err .uninitializedVariable :=
  read_uninitialized 3 s7c 0 0 ⟨[], true⟩ (by decide) (by decide) (by decide) (by decide)
    (by decide)

end SSA
